import Mathlib

/-!
Verification development for the icfpc-2025 visualizer's core:
the seeded random generator, the maze builder (`generateBuilding`), the
walk simulators (`simulateExploration`, `simulateExplorationSteps`), the
visualization edge list (`connections`), and the remote exploration relay
(`exploreAedificium`).

JavaScript numbers are IEEE-754 doubles, and the generator's update
`(seed * 1103515245 + 12345) % 2**31` computes the product and the sum in
doubles: each intermediate integer is rounded to the nearest representable
double (ties to even) before the next operation, which loses low bits once
`seed * 1103515245` reaches `2^53`.  The embedding models this rounding
exactly on integer-valued doubles (`roundNearestEven`); all other number
operations of the translated code (the division by `2^31`, `Math.floor` of
the scaled value for the `max` values the code uses, array indices,
comparisons) are exact in doubles and are modelled over `Int`/`Rat`.
JavaScript's remainder operator keeps the sign of the dividend, which we
model precisely (`jsRem`); on doubles `%` is computed without rounding.
Out-of-bounds array accesses, which throw a `TypeError` in JavaScript
(reading a property of `undefined`), are modelled by `Option`: a `none`
result stands for the thrown exception.
-/

set_option maxRecDepth 10000
set_option maxHeartbeats 4000000
set_option linter.unusedVariables false

/-- JavaScript's `%` on integers: truncated remainder, the result carries the
sign of the dividend (`-7 % 3 = -1`).  Used with the positive modulus `2^31`. -/
def jsRem (a b : Int) : Int :=
  if a < 0 then -((-a) % b) else a % b

/-- Smallest `k` with `x < 2^(53 + k)`: the binary exponent of the unit in
the last place of `x` as an IEEE-754 double (0 while `x` fits in the 53-bit
mantissa).  Fuel-based so the kernel can evaluate it; 64 levels cover every
value the generator produces. -/
def ulpExpAux : Nat → Nat → Nat
  | 0, _ => 0
  | fuel + 1, x => if x < 2 ^ 53 then 0 else ulpExpAux fuel (x / 2) + 1

/-- Round an integer to the nearest integer representable as an IEEE-754
double (53-bit mantissa), ties to even: the result of a JavaScript `+` or
`*` whose mathematical value is the integer `x`. -/
def roundNearestEven (x : Int) : Int :=
  let a := x.natAbs
  let k := ulpExpAux 64 a
  if k = 0 then x
  else
    let s : Nat := 2 ^ k
    let q := a / s
    let r := a % s
    let q2 := if r * 2 < s then q
      else if s < r * 2 then q + 1
      else if q % 2 = 0 then q else q + 1
    if x < 0 then -((q2 * s : Nat) : Int) else ((q2 * s : Nat) : Int)

/-- `SeededRandom.next`: advances `seed = (seed * 1103515245 + 12345) % 2**31`
the way JavaScript computes it — the product and then the sum are each
rounded to the nearest double — and returns `seed / 2**31` (exact: the new
seed is an integer below `2^31`, so the division is exact in doubles)
together with the new seed. -/
def SeededRandom.next (s : Int) : Rat × Int :=
  let t := roundNearestEven (roundNearestEven (s * 1103515245) + 12345)
  let s' := jsRem t (2 ^ 31)
  ((s' : Rat) / 2 ^ 31, s')

/-- `SeededRandom.nextInt(max)`: `Math.floor(this.next() * max)`, returning the
drawn integer together with the new seed.  For the `max` values the code
passes (at most `numRooms` or 6) the product `(s' / 2^31) * max` has
`|s' * max| < 2^53`, so the double multiplication is exact and
`⌊(s' / 2^31) * max⌋` is the floor division `(s' * max).fdiv 2^31`; the
equality with the floor-of-rational form is `nextInt_eq_floor`. -/
def SeededRandom.nextInt (s : Int) (max : Int) : Int × Int :=
  let s' := (SeededRandom.next s).2
  ((s' * max).fdiv (2 ^ 31), s')

/-- Seed of the generator after `k` calls to `next`. -/
def SeededRandom.seedAfter (s : Int) : Nat → Int
  | 0 => s
  | k + 1 => (SeededRandom.next (SeededRandom.seedAfter s k)).2

/-- One door slot of a room: the target room and target door, `-1`/`-1`
while unassigned. -/
structure DoorConnection where
  toRoom : Int
  toDoor : Int
deriving DecidableEq, Repr, Inhabited

/-- A room: its index `id`, its 2-bit `label`, and its six door slots. -/
structure Room where
  id : Nat
  label : Int
  doors : List DoorConnection
deriving DecidableEq, Repr, Inhabited

/-- A maze: the room list and the starting room index (always 0). -/
structure Building where
  rooms : List Room
  startingRoom : Nat
deriving DecidableEq, Repr, Inhabited

/-- The six unassigned door slots a fresh room starts with. -/
def mkDoors : List DoorConnection :=
  List.replicate 6 ⟨-1, -1⟩

/-- Room-creation loop of `generateBuilding`: pushes `count` rooms starting at
index `i`.  The two call sites of the generator differ only here:
`randomLabels = true` is the variant with `label: rng.nextInt(4)`,
`randomLabels = false` the variant with `label: i % 4`. -/
def initRoomsAux (randomLabels : Bool) : Nat → Nat → Int → List Room × Int
  | 0, _, s => ([], s)
  | count + 1, i, s =>
    let p : Int × Int := if randomLabels then SeededRandom.nextInt s 4 else ((i % 4 : Nat), s)
    let rest := initRoomsAux randomLabels count (i + 1) p.2
    (⟨i, p.1, mkDoors⟩ :: rest.1, rest.2)

/-- Checked list index: `some` exactly when `0 ≤ i < len`, mirroring the range
in which a JavaScript array read yields an element rather than `undefined`. -/
def idx? (len : Nat) (i : Int) : Option Nat :=
  if 0 ≤ i ∧ i < (len : Int) then some i.toNat else none

/-- `rooms[r]` with a JavaScript-style bounds check (`none` = `undefined`). -/
def getRoom? (rooms : List Room) (r : Int) : Option Room := do
  let j ← idx? rooms.length r
  rooms.get? j

/-- `rooms[r].doors[d]`; `none` models the `TypeError` thrown when either
index is out of range and a property of `undefined` is then read. -/
def getDoor? (rooms : List Room) (r d : Int) : Option DoorConnection := do
  let room ← getRoom? rooms r
  let j ← idx? room.doors.length d
  room.doors.get? j

/-- `isDoorAvailable(roomId, doorId)`: `rooms[roomId].doors[doorId].toRoom === -1`;
`none` models the exception on an out-of-range index. -/
def isDoorAvailable? (rooms : List Room) (r d : Int) : Option Bool := do
  let conn ← getDoor? rooms r d
  pure (conn.toRoom == -1)

/-- Functional update of one door slot.  Every call site has in-range indices
(they were vetted by `isDoorAvailable?` or are loop indices), so the
out-of-range identity branch is unreachable. -/
def setDoor (rooms : List Room) (r d : Nat) (conn : DoorConnection) : List Room :=
  match rooms.get? r with
  | some room => rooms.set r { room with doors := room.doors.set d conn }
  | none => rooms

/-- `connectRooms`: assign `rooms[fromRoom].doors[fromDoor] = {toRoom, toDoor}` and,
unless it is the very same slot, the symmetric back link. -/
def connectRooms (rooms : List Room) (fromRoom fromDoor toRoom toDoor : Nat) : List Room :=
  let rooms1 := setDoor rooms fromRoom fromDoor ⟨toRoom, toDoor⟩
  if fromRoom ≠ toRoom ∨ fromDoor ≠ toDoor then
    setDoor rooms1 toRoom toDoor ⟨fromRoom, fromDoor⟩
  else
    rooms1

/-- First unassigned door of a room:
`rooms[roomId].doors.findIndex((_door, index) => isDoorAvailable(roomId, index))`;
the enumerated index ranges over the same array, so the predicate is
`door.toRoom === -1`.  `none` models `findIndex` returning `-1`. -/
def findAvailableDoorIdx (rooms : List Room) (roomId : Nat) : Option Nat :=
  match rooms.get? roomId with
  | some room => room.doors.findIdx? (fun d => d.toRoom == -1)
  | none => none

/-- Inner `for (targetRoom …)` loop of the spanning-tree phase: scan the
candidate targets in increasing order, skip visited ones, and return the first
target for which both `findIndex` calls succeed, with the two door indices. -/
def findSpanningTarget (rooms : List Room) (visited : List Nat) (currentRoom : Nat) :
    List Nat → Option (Nat × Nat × Nat)
  | [] => none
  | t :: ts =>
    if t ∈ visited then findSpanningTarget rooms visited currentRoom ts
    else
      match findAvailableDoorIdx rooms currentRoom, findAvailableDoorIdx rooms t with
      | some fromDoor, some toDoor => some (fromDoor, t, toDoor)
      | _, _ => findSpanningTarget rooms visited currentRoom ts

/-- Spanning-tree `while` loop.  `fuel` is an upper bound on the number of
iterations: every iteration pops one queue element, and at most `numRooms`
elements ever enter the queue (one initial plus one per newly visited room),
so `numRooms + 1` fuel is never exhausted on the builder's call (proved below
by the exact trace lemma); the fuel-out branch returns the current rooms. -/
def spanningLoop (numRooms : Nat) : Nat → List Nat → List Nat → List Room → List Room
  | 0, _, _, rooms => rooms
  | _ + 1, [], _, rooms => rooms
  | fuel + 1, q :: qs, visited, rooms =>
    if visited.length < numRooms then
      match findSpanningTarget rooms visited q (List.range numRooms) with
      | some (fromDoor, target, toDoor) =>
        spanningLoop numRooms fuel (qs ++ [target]) (visited ++ [target])
          (connectRooms rooms q fromDoor target toDoor)
      | none => spanningLoop numRooms fuel qs visited rooms
    else rooms

/-- Random-augmentation loop: `numRooms * 2` trials; each trial draws
`room1, room2, door1, door2` and connects only if both doors are available.
The `&&` is short-circuiting: the second availability check (which can throw
on an out-of-range draw) only runs when the first one returned `true`. -/
def augmentLoop (numRooms : Nat) : Nat → List Room → Int → Option (List Room × Int)
  | 0, rooms, s => some (rooms, s)
  | count + 1, rooms, s =>
    let p1 := SeededRandom.nextInt s numRooms
    let p2 := SeededRandom.nextInt p1.2 numRooms
    let p3 := SeededRandom.nextInt p2.2 6
    let p4 := SeededRandom.nextInt p3.2 6
    do
      let avail1 ← isDoorAvailable? rooms p1.1 p3.1
      if avail1 then do
        let avail2 ← isDoorAvailable? rooms p2.1 p4.1
        if avail2 then
          augmentLoop numRooms count
            (connectRooms rooms p1.1.toNat p3.1.toNat p2.1.toNat p4.1.toNat) p4.2
        else augmentLoop numRooms count rooms p4.2
      else augmentLoop numRooms count rooms p4.2

/-- Closure-phase `do … while` search for a target of the still-unassigned door
`(roomId, door)`.  The source counts `attempts` up and forces a self-loop once
`attempts > 20` (i.e. on the 21st iteration, right after drawing and before the
availability check); we count the remaining iterations down from 21. -/
def closurePick (numRooms : Nat) (rooms : List Room) (roomId door : Nat) :
    Nat → Int → Option (Int × Int × Int)
  | 0, s => some (roomId, door, s)
  | fuel + 1, s =>
    let p1 := SeededRandom.nextInt s numRooms
    let p2 := SeededRandom.nextInt p1.2 6
    if fuel = 0 then some (roomId, door, p2.2)
    else do
      let avail ← isDoorAvailable? rooms p1.1 p2.1
      if !avail && !(p1.1 == (roomId : Int) && p2.1 == (door : Int)) then
        closurePick numRooms rooms roomId door fuel p2.2
      else
        some (p1.1, p2.1, p2.2)

/-- Closure-phase body for a single `(roomId, door)` slot. -/
def closureDoor (numRooms : Nat) (rooms : List Room) (roomId door : Nat) (s : Int) :
    Option (List Room × Int) := do
  let avail ← isDoorAvailable? rooms roomId door
  if avail then do
    let t ← closurePick numRooms rooms roomId door 21 s
    pure (connectRooms rooms roomId door t.1.toNat t.2.1.toNat, t.2.2)
  else pure (rooms, s)

/-- Closure-phase inner loop over the six doors of one room. -/
def closureDoorLoop (numRooms roomId : Nat) :
    List Nat → List Room → Int → Option (List Room × Int)
  | [], rooms, s => some (rooms, s)
  | d :: ds, rooms, s => do
    let r' ← closureDoor numRooms rooms roomId d s
    closureDoorLoop numRooms roomId ds r'.1 r'.2

/-- Closure-phase outer loop over all rooms. -/
def closureRoomLoop (numRooms : Nat) :
    List Nat → List Room → Int → Option (List Room × Int)
  | [], rooms, s => some (rooms, s)
  | r :: rs, rooms, s => do
    let r' ← closureDoorLoop numRooms r (List.range 6) rooms s
    closureRoomLoop numRooms rs r'.1 r'.2

/-- `generateBuilding(numRooms, seed)`: room creation, spanning-tree phase,
random augmentation, closure phase; returns `{rooms, startingRoom: 0}`.
`none` models a thrown `TypeError` (possible when a negative seed makes
`nextInt` return a negative index). -/
def generateBuilding (randomLabels : Bool) (numRooms : Nat) (seed : Int) :
    Option Building :=
  let r0 := initRoomsAux randomLabels numRooms 0 seed
  let rooms1 := spanningLoop numRooms (numRooms + 1) [0] [0] r0.1
  do
    let r2 ← augmentLoop numRooms (numRooms * 2) rooms1 r0.2
    let r3 ← closureRoomLoop numRooms (List.range numRooms) r2.1 r2.2
    pure { rooms := r3.1, startingRoom := 0 }

/-- `Number.parseInt(doorChar, 10)` on a single character: a value for the
ASCII digits, `none` for `NaN`. -/
def jsParseDigit (c : Char) : Option Int :=
  if '0' ≤ c ∧ c ≤ '9' then some ((c.toNat - '0'.toNat : Nat) : Int) else none

/-- JavaScript `<` against `NaN` is false. -/
def jsLtNaN (a : Option Int) (b : Int) : Bool :=
  match a with
  | some x => x < b
  | none => false

/-- JavaScript `>` against `NaN` is false. -/
def jsGtNaN (a : Option Int) (b : Int) : Bool :=
  match a with
  | some x => b < x
  | none => false

/-- `rooms[r].doors[d]` where the door index may be `NaN`: `doors[NaN]` is
`undefined`, so the subsequent `.toRoom` read throws (`none`). -/
def getDoorNaN? (rooms : List Room) (r : Int) (d : Option Int) : Option DoorConnection := do
  let room ← getRoom? rooms r
  match d with
  | none => none
  | some d => do
    let j ← idx? room.doors.length d
    room.doors.get? j

/-- Per-character loop of `simulateExploration`, carrying the current room. -/
def simExpLoop (rooms : List Room) : List Char → Int → Option (List Int)
  | [], _ => some []
  | c :: cs, cur =>
    let door := jsParseDigit c
    if jsLtNaN door 0 || jsGtNaN door 5 then simExpLoop rooms cs cur
    else do
      let conn ← getDoorNaN? rooms cur door
      if conn.toRoom != -1 then do
        let room' ← getRoom? rooms conn.toRoom
        let rest ← simExpLoop rooms cs conn.toRoom
        pure (room'.label :: rest)
      else do
        let room ← getRoom? rooms cur
        let rest ← simExpLoop rooms cs cur
        pure (room.label :: rest)

/-- `simulateExploration(building, routePlan)`: the observed label sequence,
starting with the starting room's label. -/
def simulateExploration (b : Building) (routePlan : String) : Option (List Int) := do
  let startRoom ← getRoom? b.rooms (b.startingRoom : Int)
  let rest ← simExpLoop b.rooms routePlan.toList (b.startingRoom : Int)
  pure (startRoom.label :: rest)

/-- `ExplorationState` of the stepwise simulator. -/
structure ExplorationState where
  roomId : Int
  label : Int
  doorTaken : Option Int
deriving DecidableEq, Repr, Inhabited

/-- One `ExplorationStep` of the stepwise simulator. -/
structure ExplorationStep where
  currentState : ExplorationState
  previousState : Option ExplorationState
  stepIndex : Nat
  totalSteps : Nat
deriving DecidableEq, Repr, Inhabited

/-- Per-character loop of `simulateExplorationSteps`: `i` is the character's
position in the plan, `total` the fixed `routePlan.length + 1`. -/
def simStepsLoop (rooms : List Room) (total : Nat) :
    List Char → Nat → Int → Option (List ExplorationStep)
  | [], _, _ => some []
  | c :: cs, i, cur =>
    let door := jsParseDigit c
    if jsLtNaN door 0 || jsGtNaN door 5 then simStepsLoop rooms total cs (i + 1) cur
    else do
      let room ← getRoom? rooms cur
      let conn ← getDoorNaN? rooms cur door
      let cur' := if conn.toRoom != -1 then conn.toRoom else cur
      let room' ← getRoom? rooms cur'
      let rest ← simStepsLoop rooms total cs (i + 1) cur'
      pure ({ currentState := ⟨cur', room'.label, none⟩,
              previousState := some ⟨cur, room.label, door⟩,
              stepIndex := i + 1,
              totalSteps := total } :: rest)

/-- `simulateExplorationSteps(building, routePlan)`: the step list, led by the
starting step with `stepIndex 0` and `totalSteps = routePlan.length + 1`. -/
def simulateExplorationSteps (b : Building) (routePlan : String) :
    Option (List ExplorationStep) := do
  let total := routePlan.length + 1
  let startRoom ← getRoom? b.rooms (b.startingRoom : Int)
  let rest ← simStepsLoop b.rooms total routePlan.toList 0 (b.startingRoom : Int)
  pure ({ currentState := ⟨(b.startingRoom : Int), startRoom.label, none⟩,
          previousState := none,
          stepIndex := 0,
          totalSteps := total } :: rest)

/-- One endpoint of a rendered connection (coordinates omitted: they are pure
screen geometry and irrelevant to which connections appear). -/
structure ConnEnd where
  room : Int
  door : Int
deriving DecidableEq, Repr, Inhabited

/-- One entry of the visualization's `connections` list: the `from` and `to`
endpoints (the `x`/`y` coordinates and, in the stepwise variant, the
`status`/`isDirectional` styling of an empty walk are omitted). -/
structure Conn where
  fromEnd : ConnEnd
  toEnd : ConnEnd
deriving DecidableEq, Repr, Inhabited

/-- De-duplication key of a `connections` entry.  The source builds the key as
a string such as `self-1-2-3` or `0-4-1-5`; decimal renderings of the
nonnegative numbers involved contain no `-`, so that encoding is injective in
the components and we model the key as the component tuple with a `self` tag. -/
inductive ConnKey where
  | selfKey (room d1 d2 : Int)
  | pairKey (r1 d1 r2 d2 : Int)
deriving DecidableEq, Repr

/-- Key of the first variant's `connections`:
`self-${room.id}-${door}-${targetDoor}` for self-loops, otherwise
`${min(room.id,targetRoom)}-${min(door,targetDoor)}-${max(room.id,targetRoom)}-${max(door,targetDoor)}`
(note the doors are ordered independently of the rooms they belong to). -/
def connectionKey000 (roomId : Int) (door : Int) (targetRoom targetDoor : Int) : ConnKey :=
  if roomId = targetRoom then .selfKey roomId door targetDoor
  else .pairKey (min roomId targetRoom) (min door targetDoor)
    (max roomId targetRoom) (max door targetDoor)

/-- Key of the stepwise variant's `connections`:
`self-${room.id}-${min(door,targetDoor)}-${max(door,targetDoor)}` for
self-loops, otherwise the endpoints ordered by room index, each door staying
with its own room. -/
def connectionKey001 (roomId : Int) (door : Int) (targetRoom targetDoor : Int) : ConnKey :=
  if roomId = targetRoom then .selfKey roomId (min door targetDoor) (max door targetDoor)
  else if roomId < targetRoom then .pairKey roomId door targetRoom targetDoor
  else .pairKey targetRoom targetDoor roomId door

/-- The nested `for (room of rooms) / for (door = 0..5)` scan of `connections`,
flattened to one pass over the (room, door) pairs in the same order: emit an
entry for every assigned door that is a self-loop or whose key is unseen, and
record the key of every emitted non-self entry. -/
def connScan (keyFn : Int → Int → Int → Int → ConnKey) :
    List (Room × Nat) → List ConnKey → List Conn → List Conn
  | [], _, acc => acc
  | (room, d) :: ps, seen, acc =>
    match room.doors.get? d with
    | none => connScan keyFn ps seen acc
    | some conn =>
      if conn.toRoom ≠ -1 then
        let k := keyFn room.id d conn.toRoom conn.toDoor
        if (room.id : Int) = conn.toRoom ∨ k ∉ seen then
          let entry : Conn := ⟨⟨room.id, d⟩, ⟨conn.toRoom, conn.toDoor⟩⟩
          let seen' := if (room.id : Int) ≠ conn.toRoom then seen ++ [k] else seen
          connScan keyFn ps seen' (acc ++ [entry])
        else connScan keyFn ps seen acc
      else connScan keyFn ps seen acc

/-- The (room, door) pairs of a building in the scan order of `connections`. -/
def connPairs (b : Building) : List (Room × Nat) :=
  b.rooms.flatMap (fun room => (List.range 6).map (fun d => (room, d)))

/-- The six (room, door) pairs contributed by one room to the scan order. -/
def roomPairs (room : Room) : List (Room × Nat) :=
  (List.range 6).map (fun dd => (room, dd))

/-- `connections` of the first variant. -/
def connections000 (b : Building) : List Conn :=
  connScan connectionKey000 (connPairs b) [] []

/-- `connections` of the stepwise variant, with no exploration steps supplied
(every entry then has status `normal` and no direction). -/
def connections001 (b : Building) : List Conn :=
  connScan connectionKey001 (connPairs b) [] []

/-- Number of occurrences of one entry in a `connections` list. -/
def countConn (e : Conn) : List Conn → Nat
  | [] => 0
  | c :: cs => (if c = e then 1 else 0) + countConn e cs

/-- The door slot `(r, d)` of a room list, as a total function (defaulting to
the unassigned sentinel off range); the abstraction the invariants below are
stated in. -/
def doorOf (rooms : List Room) (r d : Nat) : DoorConnection :=
  (rooms.getD r default).doors.getD d ⟨-1, -1⟩

/-- Structural well-formedness of a room list: `n` rooms, ids equal to the
indices, six doors each. -/
def RoomsShape (n : Nat) (rooms : List Room) : Prop :=
  rooms.length = n ∧
  ∀ r < n, (rooms.getD r default).id = r ∧ (rooms.getD r default).doors.length = 6

/-- Every assigned door points to a valid room index and door index. -/
def ValidDoors (n : Nat) (rooms : List Room) : Prop :=
  ∀ r < n, ∀ d < 6, (doorOf rooms r d).toRoom ≠ -1 →
    0 ≤ (doorOf rooms r d).toRoom ∧ (doorOf rooms r d).toRoom < (n : Int) ∧
    0 ≤ (doorOf rooms r d).toDoor ∧ (doorOf rooms r d).toDoor < 6

/-- Every assigned door's target door points straight back at it. -/
def SymDoors (n : Nat) (rooms : List Room) : Prop :=
  ∀ r < n, ∀ d < 6, (doorOf rooms r d).toRoom ≠ -1 →
    doorOf rooms (doorOf rooms r d).toRoom.toNat (doorOf rooms r d).toDoor.toNat =
      ⟨(r : Int), (d : Int)⟩

/-- Every door of every room is assigned. -/
def TotalDoors (n : Nat) (rooms : List Room) : Prop :=
  ∀ r < n, ∀ d < 6, (doorOf rooms r d).toRoom ≠ -1

/-- Full well-formedness of a built maze. -/
def BuildingWF (n : Nat) (b : Building) : Prop :=
  RoomsShape n b.rooms ∧ ValidDoors n b.rooms ∧ SymDoors n b.rooms ∧
  TotalDoors n b.rooms ∧ b.startingRoom = 0

/-- The invariant maintained by every phase of the builder. -/
def DoorsInv (n : Nat) (rooms : List Room) : Prop :=
  RoomsShape n rooms ∧ ValidDoors n rooms ∧ SymDoors n rooms

/-- Reachability from the starting room by door traversals. -/
inductive Reachable (b : Building) : Nat → Prop where
  | start : Reachable b b.startingRoom
  | step {r d : Nat} (hr : Reachable b r) (hd : d < 6)
      (hne : (doorOf b.rooms r d).toRoom ≠ -1) :
      Reachable b (doorOf b.rooms r d).toRoom.toNat

/-- Door assignment after the first `k` links of the spanning-tree phase
(link `j` joins rooms `j` and `j + 1`): the phase chains the rooms in
increasing index order, using door 0 of each first-time-visited room and
door 0 (for room 0) or door 1 (for later rooms) of the frontier room. -/
def chainDoors (k r d : Nat) : DoorConnection :=
  if r = 0 ∧ d = 0 ∧ 1 ≤ k then ⟨1, 0⟩
  else if 1 ≤ r ∧ r ≤ k ∧ d = 0 then ⟨((r - 1 : Nat) : Int), if r = 1 then 0 else 1⟩
  else if 1 ≤ r ∧ r + 1 ≤ k ∧ d = 1 then ⟨((r + 1 : Nat) : Int), 0⟩
  else ⟨-1, -1⟩

/-- Number of characters of a plan that are digits 0-5. -/
def isDigit05 (c : Char) : Bool :=
  '0' ≤ c && c ≤ '5'

/-- Number of plan characters that are digits 0-5. -/
def digits05Count (plan : String) : Nat :=
  (plan.toList.filter isDigit05).length

/-! ### The remote exploration relay -/

/-- Whitespace in the sense of JavaScript's `String.prototype.trim`. -/
def jsIsWhitespace (c : Char) : Bool :=
  c = ' ' || c = '\t' || c = '\n' || c = '\r' ||
  c.toNat = 0x0b || c.toNat = 0x0c || c.toNat = 0xa0 || c.toNat = 0xfeff ||
  c.toNat = 0x1680 || (0x2000 ≤ c.toNat && c.toNat ≤ 0x200a) ||
  c.toNat = 0x2028 || c.toNat = 0x2029 || c.toNat = 0x202f || c.toNat = 0x205f ||
  c.toNat = 0x3000

/-- JavaScript `plan.trim()`: strip leading and trailing whitespace. -/
def jsTrim (s : String) : String :=
  String.mk (((s.toList.dropWhile jsIsWhitespace).reverse.dropWhile jsIsWhitespace).reverse)

/-- The test `/^[0-5]+$/.test(t)`: nonempty and all characters digits 0-5. -/
def testPlanRegex (t : String) : Bool :=
  !t.isEmpty && t.toList.all isDigit05

/-- An element of the incoming `plans` array: a string, or any non-string
JSON value (whose content the filter never looks at). -/
inductive JsValue where
  | str (s : String)
  | other
deriving DecidableEq, Repr

/-- The filter predicate of the relay:
`typeof plan === 'string' && plan.trim().length > 0 && /^[0-5]+$/.test(plan.trim())`. -/
def planFilter (p : JsValue) : Bool :=
  match p with
  | .str s => !(jsTrim s).isEmpty && testPlanRegex (jsTrim s)
  | .other => false

/-- The `.map((plan) => plan.trim())` step; the non-string branch is
unreachable because the filter admits only strings. -/
def trimPlan : JsValue → String
  | .str s => jsTrim s
  | .other => ""

/-- `validPlans`: filter, then map to the trimmed strings. -/
def validPlans (plans : List JsValue) : List String :=
  (plans.filter planFilter).map trimPlan

/-- The remote API's success payload for `/explore`. -/
structure ExploreResponse where
  results : List (List Int)
  queryCount : Nat
deriving DecidableEq, Repr, Inhabited

/-- The remote API's success payload for `/select`. -/
structure SelectResponse where
  problemName : String
deriving DecidableEq, Repr, Inhabited

/-- Outcome of one `fetch`: an HTTP response (any status) or a thrown
network error. -/
inductive HttpOutcome where
  | response (status : Nat) (statusText : String)
  | netError (msg : String)
deriving DecidableEq, Repr

/-- The two network requests the relay can issue. -/
inductive ApiCall where
  | select
  | explore
deriving DecidableEq, Repr

/-- Behaviour of the remote API during one invocation: what each of the two
fetches would produce if issued. -/
structure RemoteApi where
  selectOutcome : HttpOutcome
  selectBody : SelectResponse
  exploreOutcome : HttpOutcome
  exploreBody : ExploreResponse

/-- `Response.ok`: status in the range 200-299. -/
def statusOk (status : Nat) : Bool :=
  200 ≤ status && status < 300

/-- The `exploreAedificium` callable: validate and filter the plans, then
select, then explore, wrapping any failure thrown inside the `try` block in
`Failed to explore aedificium: …`.  Returns the result together with the list
of network requests actually issued.  (The `!plans || !Array.isArray(plans)`
guard is outside this model: the input is typed as a list.) -/
def exploreAedificium (api : RemoteApi) (plans : List JsValue) (problemName : String) :
    Except String ExploreResponse × List ApiCall :=
  let vp := validPlans plans
  if vp.length = 0 then
    (.error "Invalid request: at least one valid plan is required (digits 0-5 only)", [])
  else
    match api.selectOutcome with
    | .netError msg =>
      (.error ("Failed to explore aedificium: " ++ msg), [.select])
    | .response status statusText =>
      if !statusOk status then
        (.error ("Failed to explore aedificium: Problem selection failed: " ++
          toString status ++ " " ++ statusText), [.select])
      else
        match api.exploreOutcome with
        | .netError msg =>
          (.error ("Failed to explore aedificium: " ++ msg), [.select, .explore])
        | .response status2 statusText2 =>
          if !statusOk status2 then
            (.error ("Failed to explore aedificium: API request failed: " ++
              toString status2 ++ " " ++ statusText2), [.select, .explore])
          else (.ok api.exploreBody, [.select, .explore])

/-- The plan filter as the claim words it: keep each entry that is a string
whose trimmed form is nonempty and consists of digits 0-5 only, replaced by
that trimmed remainder; drop everything else.  Stated from the claim's words,
to be compared with `validPlans` (translated from the source). -/
def validPlansSpec (plans : List JsValue) : List String :=
  plans.filterMap (fun p =>
    match p with
    | .str s =>
      let t := jsTrim s
      if !t.isEmpty && t.toList.all isDigit05 then some t else none
    | .other => none)

/-- The `stepIndex` values `i + 1` recorded for the plan characters that are
digits 0-5, positions counted from `i`. -/
def stepIdxs : List Char → Nat → List Nat
  | [], _ => []
  | c :: cs, i =>
    if isDigit05 c then (i + 1) :: stepIdxs cs (i + 1) else stepIdxs cs (i + 1)

/-- A remote API whose two endpoints both answer 200. -/
def sampleApiOk : RemoteApi :=
  { selectOutcome := .response 200 "OK",
    selectBody := { problemName := "probatio" },
    exploreOutcome := .response 200 "OK",
    exploreBody := { results := [[0]], queryCount := 1 } }

/-- A remote API whose `/select` endpoint answers 500. -/
def sampleApiSelectFail : RemoteApi :=
  { selectOutcome := .response 500 "Server Error",
    selectBody := { problemName := "probatio" },
    exploreOutcome := .response 200 "OK",
    exploreBody := { results := [[0]], queryCount := 1 } }

/-- The maze `generateBuilding(1, 7)` of the `id % 4` labelling variant,
as a literal; used as a concrete witness input (checked by `decide` against
`generateBuilding` below). -/
def sampleBuilding1 : Building :=
  { rooms := [
      { id := 0, label := 0, doors := [⟨0, 1⟩, ⟨0, 0⟩, ⟨0, 4⟩, ⟨0, 5⟩, ⟨0, 2⟩, ⟨0, 3⟩] }],
    startingRoom := 0 }

/-- The maze `generateBuilding(2, 5)` of the `id % 4` labelling variant,
as a literal; used as a concrete witness input. -/
def sampleBuilding2 : Building :=
  { rooms := [
      { id := 0, label := 0, doors := [⟨1, 0⟩, ⟨1, 5⟩, ⟨1, 2⟩, ⟨0, 3⟩, ⟨1, 1⟩, ⟨0, 5⟩] },
      { id := 1, label := 1, doors := [⟨0, 0⟩, ⟨0, 4⟩, ⟨0, 2⟩, ⟨1, 4⟩, ⟨1, 3⟩, ⟨0, 1⟩] }],
    startingRoom := 0 }

/-- The maze `generateBuilding(3, 12345)` of the `id % 4` labelling variant,
as a literal; it contains self-loops joining two different doors of one room
(room 2, doors 1 and 5; room 2, doors 2 and 4), same-door self-loops
(room 0, door 2; room 1, door 4), and two distinct-room connections whose
unordered door-number sets coincide (room 0 door 3 to room 1 door 5, and
room 0 door 5 to room 1 door 3). -/
def sampleBuilding3 : Building :=
  { rooms := [
      { id := 0, label := 0, doors := [⟨1, 0⟩, ⟨2, 3⟩, ⟨0, 2⟩, ⟨1, 5⟩, ⟨1, 2⟩, ⟨1, 3⟩] },
      { id := 1, label := 1, doors := [⟨0, 0⟩, ⟨2, 0⟩, ⟨0, 4⟩, ⟨0, 5⟩, ⟨1, 4⟩, ⟨0, 3⟩] },
      { id := 2, label := 2, doors := [⟨1, 1⟩, ⟨2, 5⟩, ⟨2, 4⟩, ⟨0, 1⟩, ⟨2, 2⟩, ⟨2, 1⟩] }],
    startingRoom := 0 }

/-! ### Lemmas about the seeded random generator -/

theorem jsRem_of_nonneg {a : Int} (b : Int) (h : 0 ≤ a) : jsRem a b = a % b := by
  simp [jsRem, not_lt.mpr h]

theorem roundNearestEven_nonneg {x : Int} (h : 0 ≤ x) : 0 ≤ roundNearestEven x := by
  simp only [roundNearestEven]
  split_ifs <;> first | exact h | omega

theorem roundNearestEven_eq_self {x : Int} (h : x.natAbs < 2 ^ 53) :
    roundNearestEven x = x := by
  have hk : ulpExpAux 64 x.natAbs = 0 := by
    show ulpExpAux (63 + 1) x.natAbs = 0
    rw [ulpExpAux]
    exact if_pos h
  simp only [roundNearestEven]
  rw [if_pos hk]

/-- The seed update follows the exact integer recurrence precisely when the
intermediate value `seed * 1103515245 + 12345` stays below `2^53`, the bound
past which the double multiplication rounds (for larger seeds the program's
sequence diverges from the exact recurrence; see the counterexample). -/
theorem next_seed_eq_emod {s : Int} (hs : 0 ≤ s)
    (hsmall : s * 1103515245 + 12345 < 2 ^ 53) :
    (SeededRandom.next s).2 = (s * 1103515245 + 12345) % 2 ^ 31 := by
  have h0 : (0 : Int) ≤ s * 1103515245 := by positivity
  have h1 : roundNearestEven (s * 1103515245) = s * 1103515245 :=
    roundNearestEven_eq_self (by omega)
  have h2 : roundNearestEven (s * 1103515245 + 12345) = s * 1103515245 + 12345 :=
    roundNearestEven_eq_self (by omega)
  show jsRem (roundNearestEven (roundNearestEven (s * 1103515245) + 12345)) (2 ^ 31) = _
  rw [h1, h2, jsRem_of_nonneg _ (by omega)]

theorem next_seed_nonneg {s : Int} (hs : 0 ≤ s) : 0 ≤ (SeededRandom.next s).2 := by
  have h0 : (0 : Int) ≤ s * 1103515245 := by positivity
  have h1 : 0 ≤ roundNearestEven (s * 1103515245) := roundNearestEven_nonneg h0
  have h2 : 0 ≤ roundNearestEven (roundNearestEven (s * 1103515245) + 12345) :=
    roundNearestEven_nonneg (by omega)
  show 0 ≤ jsRem (roundNearestEven (roundNearestEven (s * 1103515245) + 12345)) (2 ^ 31)
  rw [jsRem_of_nonneg _ h2]
  exact Int.emod_nonneg _ (by norm_num)

theorem next_seed_lt {s : Int} (hs : 0 ≤ s) : (SeededRandom.next s).2 < 2 ^ 31 := by
  have h0 : (0 : Int) ≤ s * 1103515245 := by positivity
  have h1 : 0 ≤ roundNearestEven (s * 1103515245) := roundNearestEven_nonneg h0
  have h2 : 0 ≤ roundNearestEven (roundNearestEven (s * 1103515245) + 12345) :=
    roundNearestEven_nonneg (by omega)
  show jsRem (roundNearestEven (roundNearestEven (s * 1103515245) + 12345)) (2 ^ 31) < 2 ^ 31
  rw [jsRem_of_nonneg _ h2]
  exact Int.emod_lt_of_pos _ (by norm_num)

theorem next_val_eq (s : Int) :
    (SeededRandom.next s).1 = ((SeededRandom.next s).2 : Rat) / 2 ^ 31 := rfl

theorem next_val_nonneg {s : Int} (hs : 0 ≤ s) : 0 ≤ (SeededRandom.next s).1 := by
  rw [next_val_eq]
  have h2 : (0 : Rat) ≤ ((SeededRandom.next s).2 : Rat) := by
    exact_mod_cast next_seed_nonneg hs
  positivity

theorem next_val_lt_one {s : Int} (hs : 0 ≤ s) : (SeededRandom.next s).1 < 1 := by
  rw [next_val_eq]
  rw [div_lt_one (by positivity)]
  exact_mod_cast next_seed_lt hs

theorem nextInt_seed (s max : Int) :
    (SeededRandom.nextInt s max).2 = (SeededRandom.next s).2 := rfl

theorem nextInt_eq_floor (s max : Int) :
    (SeededRandom.nextInt s max).1 = ⌊(SeededRandom.next s).1 * (max : Rat)⌋ := by
  show ((SeededRandom.next s).2 * max).fdiv (2 ^ 31) = _
  rw [next_val_eq]
  have h1 : ((SeededRandom.next s).2 : Rat) / 2 ^ 31 * (max : Rat)
      = (((SeededRandom.next s).2 * max : Int) : Rat) / ((2 ^ 31 : Nat) : Rat) := by
    push_cast
    ring
  rw [h1, Rat.floor_intCast_div_natCast]
  rw [Int.fdiv_eq_ediv _ (by positivity)]
  norm_num

theorem nextInt_nonneg {s : Int} (hs : 0 ≤ s) {max : Int} (hm : 0 ≤ max) :
    0 ≤ (SeededRandom.nextInt s max).1 := by
  rw [nextInt_eq_floor]
  rw [Int.floor_nonneg]
  have := next_val_nonneg hs
  positivity

theorem nextInt_lt {s : Int} (hs : 0 ≤ s) {max : Int} (hm : 1 ≤ max) :
    (SeededRandom.nextInt s max).1 < max := by
  rw [nextInt_eq_floor]
  rw [Int.floor_lt]
  calc (SeededRandom.next s).1 * (max : Rat)
      < 1 * (max : Rat) := by
        apply mul_lt_mul_of_pos_right (next_val_lt_one hs)
        exact_mod_cast lt_of_lt_of_le one_pos hm
    _ = (max : Rat) := one_mul _

theorem seedAfter_nonneg {s : Int} (hs : 0 ≤ s) (k : Nat) :
    0 ≤ SeededRandom.seedAfter s k := by
  induction k with
  | zero => exact hs
  | succ k ih => exact next_seed_nonneg ih

/-! ### Door-map lemmas for the builder -/

theorem length_setDoor (rooms : List Room) (r d : Nat) (c : DoorConnection) :
    (setDoor rooms r d c).length = rooms.length := by
  unfold setDoor
  cases rooms.get? r <;> simp

theorem getD_setDoor_ne (rooms : List Room) {r' : Nat} (d' : Nat) (c : DoorConnection)
    {r : Nat} (h : r ≠ r') :
    (setDoor rooms r' d' c).getD r default = rooms.getD r default := by
  unfold setDoor
  cases rooms.get? r' with
  | none => rfl
  | some room =>
    rw [List.getD_eq_getElem?_getD, List.getElem?_set,
      if_neg (fun hh : r' = r => h hh.symm), ← List.getD_eq_getElem?_getD]

theorem getD_setDoor_self (rooms : List Room) {r : Nat} (d : Nat) (c : DoorConnection)
    (h : r < rooms.length) :
    (setDoor rooms r d c).getD r default =
      { rooms.getD r default with doors := (rooms.getD r default).doors.set d c } := by
  unfold setDoor
  have hsome : rooms.get? r = some (rooms.getD r default) := by
    rw [List.get?_eq_getElem?, List.getElem?_eq_getElem h, List.getD_eq_getElem?_getD,
      List.getElem?_eq_getElem h]
    rfl
  rw [hsome]
  rw [List.getD_eq_getElem?_getD, List.getElem?_set]
  simp [h]

theorem doorOf_setDoor (rooms : List Room) {r' d' : Nat} (c : DoorConnection)
    (hr' : r' < rooms.length) (hd' : d' < (rooms.getD r' default).doors.length)
    (r d : Nat) :
    doorOf (setDoor rooms r' d' c) r d =
      if r = r' ∧ d = d' then c else doorOf rooms r d := by
  unfold doorOf
  by_cases hr : r = r'
  · subst hr
    rw [getD_setDoor_self rooms d' c hr']
    show ((rooms.getD r default).doors.set d' c).getD d _ = _
    by_cases hd : d = d'
    · subst hd
      rw [if_pos ⟨rfl, rfl⟩, List.getD_eq_getElem?_getD, List.getElem?_set,
        if_pos rfl, if_pos hd']
      rfl
    · rw [if_neg (fun hh => hd hh.2), List.getD_eq_getElem?_getD, List.getElem?_set,
        if_neg (fun hh : d' = d => hd hh.symm), ← List.getD_eq_getElem?_getD]
  · rw [getD_setDoor_ne rooms d' c hr, if_neg (fun hh => hr hh.1)]

theorem id_setDoor (rooms : List Room) (r' d' : Nat) (c : DoorConnection) (r : Nat) :
    ((setDoor rooms r' d' c).getD r default).id = (rooms.getD r default).id := by
  by_cases hr : r = r'
  · subst hr
    by_cases h : r < rooms.length
    · rw [getD_setDoor_self rooms d' c h]
    · unfold setDoor
      rw [List.get?_eq_getElem?, List.getElem?_eq_none (by omega)]
  · rw [getD_setDoor_ne rooms d' c hr]

theorem doorsLength_setDoor (rooms : List Room) (r' d' : Nat) (c : DoorConnection) (r : Nat) :
    ((setDoor rooms r' d' c).getD r default).doors.length =
      (rooms.getD r default).doors.length := by
  by_cases hr : r = r'
  · subst hr
    by_cases h : r < rooms.length
    · rw [getD_setDoor_self rooms d' c h]
      simp
    · unfold setDoor
      rw [List.get?_eq_getElem?, List.getElem?_eq_none (by omega)]
  · rw [getD_setDoor_ne rooms d' c hr]

theorem label_setDoor (rooms : List Room) (r' d' : Nat) (c : DoorConnection) (r : Nat) :
    ((setDoor rooms r' d' c).getD r default).label = (rooms.getD r default).label := by
  by_cases hr : r = r'
  · subst hr
    by_cases h : r < rooms.length
    · rw [getD_setDoor_self rooms d' c h]
    · unfold setDoor
      rw [List.get?_eq_getElem?, List.getElem?_eq_none (by omega)]
  · rw [getD_setDoor_ne rooms d' c hr]

theorem shape_setDoor {n : Nat} {rooms : List Room} (h : RoomsShape n rooms)
    (r' d' : Nat) (c : DoorConnection) : RoomsShape n (setDoor rooms r' d' c) := by
  obtain ⟨hlen, hall⟩ := h
  refine ⟨by rw [length_setDoor, hlen], fun r hr => ?_⟩
  rw [id_setDoor, doorsLength_setDoor]
  exact hall r hr

theorem shape_connectRooms {n : Nat} {rooms : List Room} (h : RoomsShape n rooms)
    (r1 d1 r2 d2 : Nat) : RoomsShape n (connectRooms rooms r1 d1 r2 d2) := by
  unfold connectRooms
  split
  · exact shape_setDoor (shape_setDoor h r1 d1 _) r2 d2 _
  · exact shape_setDoor h r1 d1 _

theorem mk_toRoom (a b : Int) : (DoorConnection.mk a b).toRoom = a := rfl

theorem mk_toDoor (a b : Int) : (DoorConnection.mk a b).toDoor = b := rfl

theorem doorOf_connectRooms {n : Nat} {rooms : List Room} (hs : RoomsShape n rooms)
    {r1 d1 r2 d2 : Nat} (hr1 : r1 < n) (hd1 : d1 < 6) (hr2 : r2 < n) (hd2 : d2 < 6)
    (r d : Nat) :
    doorOf (connectRooms rooms r1 d1 r2 d2) r d =
      if r = r2 ∧ d = d2 then ⟨(r1 : Int), (d1 : Int)⟩
      else if r = r1 ∧ d = d1 then ⟨(r2 : Int), (d2 : Int)⟩
      else doorOf rooms r d := by
  have hlen : rooms.length = n := hs.1
  have hr1' : r1 < rooms.length := by omega
  have hr2' : r2 < rooms.length := by omega
  have hd1' : d1 < (rooms.getD r1 default).doors.length := by
    rw [(hs.2 r1 hr1).2]; omega
  unfold connectRooms
  split
  case isTrue hne =>
    rw [doorOf_setDoor _ _ (by rw [length_setDoor]; omega)
      (by rw [doorsLength_setDoor, (hs.2 r2 hr2).2]; omega) r d]
    rw [doorOf_setDoor _ _ hr1' hd1' r d]
  case isFalse hne =>
    push_neg at hne
    obtain ⟨he1, he2⟩ := hne
    subst he1
    subst he2
    rw [doorOf_setDoor _ _ hr1' hd1' r d]
    by_cases hc : r = r1 ∧ d = d1
    · rw [if_pos hc, if_pos hc]
    · rw [if_neg hc, if_neg hc]

theorem connect_preserves {n : Nat} {rooms : List Room} (hinv : DoorsInv n rooms)
    {r1 d1 r2 d2 : Nat} (hr1 : r1 < n) (hd1 : d1 < 6) (hr2 : r2 < n) (hd2 : d2 < 6)
    (hav1 : (doorOf rooms r1 d1).toRoom = -1) (hav2 : (doorOf rooms r2 d2).toRoom = -1) :
    DoorsInv n (connectRooms rooms r1 d1 r2 d2) ∧
    doorOf (connectRooms rooms r1 d1 r2 d2) r1 d1 = ⟨(r2 : Int), (d2 : Int)⟩ ∧
    doorOf (connectRooms rooms r1 d1 r2 d2) r2 d2 = ⟨(r1 : Int), (d1 : Int)⟩ ∧
    (∀ r d, (doorOf rooms r d).toRoom ≠ -1 →
      doorOf (connectRooms rooms r1 d1 r2 d2) r d = doorOf rooms r d) := by
  obtain ⟨hs, hv, hy⟩ := hinv
  have hD := doorOf_connectRooms hs hr1 hd1 hr2 hd2
  have hval1 : doorOf (connectRooms rooms r1 d1 r2 d2) r1 d1 = ⟨(r2 : Int), (d2 : Int)⟩ := by
    rw [hD]
    by_cases hc : r1 = r2 ∧ d1 = d2
    · obtain ⟨he1, he2⟩ := hc
      subst he1; subst he2
      rw [if_pos ⟨rfl, rfl⟩]
    · rw [if_neg hc, if_pos ⟨rfl, rfl⟩]
  have hval2 : doorOf (connectRooms rooms r1 d1 r2 d2) r2 d2 = ⟨(r1 : Int), (d1 : Int)⟩ := by
    rw [hD, if_pos ⟨rfl, rfl⟩]
  have hframe : ∀ r d, (doorOf rooms r d).toRoom ≠ -1 →
      doorOf (connectRooms rooms r1 d1 r2 d2) r d = doorOf rooms r d := by
    intro r d hne
    rw [hD]
    rw [if_neg (fun hc => by obtain ⟨he1, he2⟩ := hc; subst he1; subst he2; exact hne hav2),
      if_neg (fun hc => by obtain ⟨he1, he2⟩ := hc; subst he1; subst he2; exact hne hav1)]
  refine ⟨⟨shape_connectRooms hs r1 d1 r2 d2, ?_, ?_⟩, hval1, hval2, hframe⟩
  · -- ValidDoors
    intro r hr d hd hne
    rw [hD r d] at hne ⊢
    by_cases hc2 : r = r2 ∧ d = d2
    · rw [if_pos hc2]
      simp only [mk_toRoom, mk_toDoor]
      omega
    · rw [if_neg hc2] at hne ⊢
      by_cases hc1 : r = r1 ∧ d = d1
      · rw [if_pos hc1]
        simp only [mk_toRoom, mk_toDoor]
        omega
      · rw [if_neg hc1] at hne ⊢
        exact hv r hr d hd hne
  · -- SymDoors
    intro r hr d hd hne
    rw [hD r d] at hne ⊢
    by_cases hc2 : r = r2 ∧ d = d2
    · rw [if_pos hc2]
      obtain ⟨he1, he2⟩ := hc2
      subst he1; subst he2
      simp only [mk_toRoom, mk_toDoor, Int.toNat_natCast]
      exact hval1
    · rw [if_neg hc2] at hne ⊢
      by_cases hc1 : r = r1 ∧ d = d1
      · rw [if_pos hc1]
        obtain ⟨he1, he2⟩ := hc1
        subst he1; subst he2
        simp only [mk_toRoom, mk_toDoor, Int.toNat_natCast]
        exact hval2
      · rw [if_neg hc1] at hne ⊢
        have hold := hy r hr d hd hne
        have htgt_ne2 : ¬((doorOf rooms r d).toRoom.toNat = r2 ∧
            (doorOf rooms r d).toDoor.toNat = d2) := by
          rintro ⟨he1, he2⟩
          rw [← he1, ← he2] at hav2
          rw [hold] at hav2
          rw [mk_toRoom] at hav2
          omega
        have htgt_ne1 : ¬((doorOf rooms r d).toRoom.toNat = r1 ∧
            (doorOf rooms r d).toDoor.toNat = d1) := by
          rintro ⟨he1, he2⟩
          rw [← he1, ← he2] at hav1
          rw [hold] at hav1
          rw [mk_toRoom] at hav1
          omega
        rw [hD, if_neg htgt_ne2, if_neg htgt_ne1]
        exact hold

/-! ### Room creation -/

theorem initRoomsAux_length (rl : Bool) :
    ∀ (count i : Nat) (s : Int), (initRoomsAux rl count i s).1.length = count := by
  intro count
  induction count with
  | zero => intro i s; rfl
  | succ count ih =>
    intro i s
    show (_ :: _).length = count + 1
    simp [ih]

theorem initRoomsAux_get (rl : Bool) :
    ∀ (count i : Nat) (s : Int), ∀ j < count,
      ((initRoomsAux rl count i s).1.getD j default).id = i + j ∧
      ((initRoomsAux rl count i s).1.getD j default).doors = mkDoors := by
  intro count
  induction count with
  | zero => intro i s j hj; omega
  | succ count ih =>
    intro i s j hj
    simp only [initRoomsAux]
    cases j with
    | zero => exact ⟨rfl, rfl⟩
    | succ j =>
      rw [List.getD_cons_succ]
      have := ih (i + 1) (if rl then SeededRandom.nextInt s 4 else ((i % 4 : Nat), s)).2 j
        (by omega)
      refine ⟨?_, this.2⟩
      rw [this.1]
      omega

theorem initRoomsAux_seed_nonneg (rl : Bool) :
    ∀ (count i : Nat) {s : Int}, 0 ≤ s → 0 ≤ (initRoomsAux rl count i s).2 := by
  intro count
  induction count with
  | zero => intro i s hs; exact hs
  | succ count ih =>
    intro i s hs
    show 0 ≤ (initRoomsAux rl count (i + 1) _).2
    apply ih
    cases rl with
    | true => exact next_seed_nonneg hs
    | false => exact hs

theorem mkDoors_getD (d : Nat) : mkDoors.getD d ⟨-1, -1⟩ = ⟨-1, -1⟩ := by
  rw [mkDoors, List.getD_eq_getElem?_getD, List.getElem?_replicate]
  by_cases h : d < 6 <;> simp [h]

theorem initRooms_shape (rl : Bool) (n : Nat) (s : Int) :
    RoomsShape n (initRoomsAux rl n 0 s).1 := by
  refine ⟨initRoomsAux_length rl n 0 s, fun r hr => ?_⟩
  obtain ⟨h1, h2⟩ := initRoomsAux_get rl n 0 s r hr
  refine ⟨by rw [h1]; omega, ?_⟩
  rw [h2, mkDoors]
  simp

theorem initRooms_unassigned (rl : Bool) (n : Nat) (s : Int) (r d : Nat) :
    doorOf (initRoomsAux rl n 0 s).1 r d = ⟨-1, -1⟩ := by
  unfold doorOf
  by_cases hr : r < n
  · rw [(initRoomsAux_get rl n 0 s r hr).2, mkDoors_getD]
  · have hroom : (initRoomsAux rl n 0 s).1.getD r default = default := by
      rw [List.getD_eq_getElem?_getD,
        List.getElem?_eq_none (by rw [initRoomsAux_length]; omega)]
      rfl
    rw [hroom]
    rfl

/-! ### The spanning-tree phase -/

theorem list_eq_six {α : Type} (z : α) : ∀ (l : List α), l.length = 6 →
    l = [l.getD 0 z, l.getD 1 z, l.getD 2 z, l.getD 3 z, l.getD 4 z, l.getD 5 z] := by
  intro l h
  cases l with
  | nil => simp at h
  | cons a0 l =>
  cases l with
  | nil => simp at h
  | cons a1 l =>
  cases l with
  | nil => simp at h
  | cons a2 l =>
  cases l with
  | nil => simp at h
  | cons a3 l =>
  cases l with
  | nil => simp at h
  | cons a4 l =>
  cases l with
  | nil => simp at h
  | cons a5 l =>
  cases l with
  | nil => rfl
  | cons a6 l => simp at h

theorem doors_list_eq {rooms : List Room} {n : Nat} (hs : RoomsShape n rooms)
    {r : Nat} (hr : r < n) :
    (rooms.getD r default).doors =
      [doorOf rooms r 0, doorOf rooms r 1, doorOf rooms r 2,
       doorOf rooms r 3, doorOf rooms r 4, doorOf rooms r 5] := by
  exact list_eq_six ⟨-1, -1⟩ _ (hs.2 r hr).2

theorem rooms_get?_eq {rooms : List Room} {n : Nat} (hs : RoomsShape n rooms)
    {r : Nat} (hr : r < n) : rooms.get? r = some (rooms.getD r default) := by
  have hlen : rooms.length = n := hs.1
  rw [List.get?_eq_getElem?, List.getElem?_eq_getElem (by omega : r < rooms.length),
    List.getD_eq_getElem?_getD, List.getElem?_eq_getElem (by omega : r < rooms.length)]
  rfl

theorem findAvailableDoorIdx_spec {n : Nat} {rooms : List Room} (hs : RoomsShape n rooms)
    {r : Nat} (hr : r < n) :
    findAvailableDoorIdx rooms r =
      if (doorOf rooms r 0).toRoom = -1 then some 0
      else if (doorOf rooms r 1).toRoom = -1 then some 1
      else if (doorOf rooms r 2).toRoom = -1 then some 2
      else if (doorOf rooms r 3).toRoom = -1 then some 3
      else if (doorOf rooms r 4).toRoom = -1 then some 4
      else if (doorOf rooms r 5).toRoom = -1 then some 5
      else none := by
  unfold findAvailableDoorIdx
  rw [rooms_get?_eq hs hr]
  show List.findIdx? (fun d => d.toRoom == -1) (rooms.getD r default).doors = _
  rw [doors_list_eq hs hr]
  simp only [List.findIdx?_cons, List.findIdx?_nil, beq_iff_eq]

theorem chainDoors_zero (r d : Nat) : chainDoors 0 r d = ⟨-1, -1⟩ := by
  unfold chainDoors
  rw [if_neg (by omega), if_neg (by omega), if_neg (by omega)]

theorem chainDoors_fresh {k r : Nat} (h : k < r) (d : Nat) : chainDoors k r d = ⟨-1, -1⟩ := by
  unfold chainDoors
  rw [if_neg (by omega), if_neg (by omega), if_neg (by omega)]

theorem chainDoors_cur0 {k : Nat} (hk : 1 ≤ k) :
    chainDoors k k 0 = ⟨((k - 1 : Nat) : Int), if k = 1 then 0 else 1⟩ := by
  unfold chainDoors
  rw [if_neg (by omega), if_pos ⟨hk, le_refl k, rfl⟩]

theorem chainDoors_cur1 (k : Nat) : chainDoors k k 1 = ⟨-1, -1⟩ := by
  unfold chainDoors
  rw [if_neg (by omega), if_neg (by omega), if_neg (by omega)]

theorem findSpanningTarget_skip (rooms : List Room) (visited : List Nat) (cur : Nat) :
    ∀ (l1 l2 : List Nat), (∀ t ∈ l1, t ∈ visited) →
    findSpanningTarget rooms visited cur (l1 ++ l2) =
      findSpanningTarget rooms visited cur l2 := by
  intro l1
  induction l1 with
  | nil => intro l2 h; rfl
  | cons a l ih =>
    intro l2 h
    rw [List.cons_append]
    show findSpanningTarget rooms visited cur (a :: (l ++ l2)) = _
    simp only [findSpanningTarget]
    rw [if_pos (h a (by simp))]
    exact ih l2 (fun t ht => h t (by simp [ht]))

theorem findAvailableDoorIdx_chain_cur {n k : Nat} {rooms : List Room}
    (hs : RoomsShape n rooms) (hk : k < n)
    (hD : ∀ r d, doorOf rooms r d = chainDoors k r d) :
    findAvailableDoorIdx rooms k = some (if k = 0 then 0 else 1) := by
  rw [findAvailableDoorIdx_spec hs hk]
  simp only [hD]
  by_cases hk0 : k = 0
  · subst hk0
    simp [chainDoors_zero]
  · rw [chainDoors_cur0 (by omega), if_neg (by rw [mk_toRoom]; omega),
      chainDoors_cur1, if_pos rfl]
    simp [hk0]

theorem findAvailableDoorIdx_chain_fresh {n k t : Nat} {rooms : List Room}
    (hs : RoomsShape n rooms) (ht : t < n) (hkt : k < t)
    (hD : ∀ r d, doorOf rooms r d = chainDoors k r d) :
    findAvailableDoorIdx rooms t = some 0 := by
  rw [findAvailableDoorIdx_spec hs ht]
  simp only [hD]
  rw [chainDoors_fresh hkt, if_pos rfl]

theorem findSpanningTarget_chain {n k : Nat} {rooms : List Room} (hs : RoomsShape n rooms)
    (hk : k + 1 < n) (hD : ∀ r d, doorOf rooms r d = chainDoors k r d) :
    findSpanningTarget rooms (List.range (k + 1)) k (List.range n) =
      some (if k = 0 then 0 else 1, k + 1, 0) := by
  have hsplit : List.range n =
      List.range (k + 1) ++ List.map (fun x => (k + 1) + x) (List.range (n - (k + 1))) := by
    rw [← List.range_add]
    congr 1
    omega
  rw [hsplit, findSpanningTarget_skip _ _ _ _ _ (fun t ht => ht)]
  obtain ⟨m, hm⟩ : ∃ m, n - (k + 1) = m + 1 := ⟨n - (k + 1) - 1, by omega⟩
  have hconsmap : List.map (fun x => (k + 1) + x) (List.range (n - (k + 1))) =
      (k + 1) :: List.map (fun x => (k + 1) + x) (List.map Nat.succ (List.range m)) := by
    rw [hm, List.range_succ_eq_map, List.map_cons]
  rw [hconsmap]
  simp only [findSpanningTarget]
  rw [if_neg (by simp)]
  rw [findAvailableDoorIdx_chain_cur hs (by omega) hD,
    findAvailableDoorIdx_chain_fresh hs (by omega) (by omega) hD]

theorem chainDoors_step (k r d : Nat) :
    (if r = k + 1 ∧ d = 0 then
      (⟨(k : Int), (((if k = 0 then 0 else 1) : Nat) : Int)⟩ : DoorConnection)
     else if r = k ∧ d = (if k = 0 then 0 else 1) then ⟨((k + 1 : Nat) : Int), (0 : Int)⟩
     else chainDoors k r d) = chainDoors (k + 1) r d := by
  unfold chainDoors
  split_ifs <;>
    first
      | rfl
      | (exfalso; omega)
      | (simp only [DoorConnection.mk.injEq, and_true, true_and]; omega)

theorem spanningLoop_trace {n : Nat} :
    ∀ (fuel k : Nat) (rooms : List Room), DoorsInv n rooms → k < n →
    (∀ r d, doorOf rooms r d = chainDoors k r d) →
    n - k ≤ fuel →
    DoorsInv n (spanningLoop n fuel [k] (List.range (k + 1)) rooms) ∧
    ∀ r d, doorOf (spanningLoop n fuel [k] (List.range (k + 1)) rooms) r d =
      chainDoors (n - 1) r d := by
  intro fuel
  induction fuel with
  | zero => intro k rooms hinv hk hD hf; omega
  | succ fuel ih =>
    intro k rooms hinv hk hD hf
    by_cases hvis : k + 1 < n
    · -- the loop connects k to k + 1 and continues
      have hguard : (List.range (k + 1)).length < n := by simp; omega
      have hstep := findSpanningTarget_chain hinv.1 hvis hD
      have hunfold : spanningLoop n (fuel + 1) [k] (List.range (k + 1)) rooms =
          spanningLoop n fuel [k + 1] (List.range (k + 2))
            (connectRooms rooms k (if k = 0 then 0 else 1) (k + 1) 0) := by
        simp only [spanningLoop]
        rw [if_pos hguard, hstep]
        show spanningLoop n fuel ([] ++ [k + 1]) (List.range (k + 1) ++ [k + 1])
          (connectRooms rooms k (if k = 0 then 0 else 1) (k + 1) 0) = _
        rw [← List.range_succ]
        rfl
      rw [hunfold]
      -- availability of the two doors being connected
      have hav1 : (doorOf rooms k (if k = 0 then 0 else 1)).toRoom = -1 := by
        by_cases hk0 : k = 0
        · subst hk0; rw [if_pos rfl, hD, chainDoors_zero]
        · rw [if_neg hk0, hD, chainDoors_cur1]
      have hav2 : (doorOf rooms (k + 1) 0).toRoom = -1 := by
        rw [hD, chainDoors_fresh (by omega)]
      obtain ⟨hinv', hc1, hc2, hframe⟩ :=
        connect_preserves hinv hk (by split <;> omega) hvis (by omega) hav1 hav2
      have hD' : ∀ r d, doorOf (connectRooms rooms k (if k = 0 then 0 else 1) (k + 1) 0) r d =
          chainDoors (k + 1) r d := by
        intro r d
        rw [doorOf_connectRooms hinv.1 hk (by split <;> omega) hvis (by omega) r d]
        rw [← chainDoors_step k r d]
        by_cases h2 : r = k + 1 ∧ d = 0
        · rw [if_pos h2, if_pos h2]
        · rw [if_neg h2, if_neg h2]
          by_cases h1 : r = k ∧ d = (if k = 0 then 0 else 1)
          · rw [if_pos h1, if_pos h1]
            simp
          · rw [if_neg h1, if_neg h1]
            exact hD r d
      exact ih (k + 1) _ hinv' hvis hD' (by omega)
    · -- k = n - 1: the loop guard fails and the rooms are returned unchanged
      have hkn : k = n - 1 := by omega
      have hguard : ¬((List.range (k + 1)).length < n) := by simp; omega
      have hunfold : spanningLoop n (fuel + 1) [k] (List.range (k + 1)) rooms = rooms := by
        simp only [spanningLoop]
        rw [if_neg hguard]
      rw [hunfold]
      exact ⟨hinv, fun r d => by rw [hD, hkn]⟩

/-! ### The augmentation and closure phases -/

theorem list_get?_getD {α : Type} [Inhabited α] (l : List α) (j : Nat) (z : α)
    (h : j < l.length) : l.get? j = some (l.getD j z) := by
  rw [List.get?_eq_getElem?, List.getElem?_eq_getElem h, List.getD_eq_getElem?_getD,
    List.getElem?_eq_getElem h]
  rfl

theorem getRoom?_eq {n : Nat} {rooms : List Room} (hs : RoomsShape n rooms) {r : Int}
    (hr0 : 0 ≤ r) (hrn : r < (n : Int)) :
    getRoom? rooms r = some (rooms.getD r.toNat default) := by
  have hlen : rooms.length = n := hs.1
  unfold getRoom? idx?
  rw [if_pos ⟨hr0, by omega⟩]
  show rooms.get? r.toNat = _
  exact list_get?_getD rooms r.toNat default (by omega)

theorem getDoor?_eq {n : Nat} {rooms : List Room} (hs : RoomsShape n rooms) {r d : Int}
    (hr0 : 0 ≤ r) (hrn : r < (n : Int)) (hd0 : 0 ≤ d) (hd6 : d < 6) :
    getDoor? rooms r d = some (doorOf rooms r.toNat d.toNat) := by
  unfold getDoor?
  rw [getRoom?_eq hs hr0 hrn]
  have hdl : (rooms.getD r.toNat default).doors.length = 6 :=
    (hs.2 r.toNat (by omega)).2
  show (idx? (rooms.getD r.toNat default).doors.length d).bind _ = _
  unfold idx?
  rw [if_pos ⟨hd0, by rw [hdl]; omega⟩]
  show (rooms.getD r.toNat default).doors.get? d.toNat = _
  exact list_get?_getD (rooms.getD r.toNat default).doors d.toNat
    (⟨-1, -1⟩ : DoorConnection) (by omega)

theorem isDoorAvailable?_eq {n : Nat} {rooms : List Room} (hs : RoomsShape n rooms) {r d : Int}
    (hr0 : 0 ≤ r) (hrn : r < (n : Int)) (hd0 : 0 ≤ d) (hd6 : d < 6) :
    isDoorAvailable? rooms r d =
      some ((doorOf rooms r.toNat d.toNat).toRoom == -1) := by
  unfold isDoorAvailable?
  rw [getDoor?_eq hs hr0 hrn hd0 hd6]
  rfl

theorem augmentLoop_inv {n : Nat} (hn : 1 ≤ n) :
    ∀ (count : Nat) (rooms : List Room) (s : Int), DoorsInv n rooms → 0 ≤ s →
    ∃ rooms' s', augmentLoop n count rooms s = some (rooms', s') ∧
      DoorsInv n rooms' ∧ 0 ≤ s' ∧
      ∀ r d, (doorOf rooms r d).toRoom ≠ -1 → doorOf rooms' r d = doorOf rooms r d := by
  intro count
  induction count with
  | zero =>
    intro rooms s hinv hs
    exact ⟨rooms, s, rfl, hinv, hs, fun r d _ => rfl⟩
  | succ count ih =>
    intro rooms s hinv hs
    have hs1 : 0 ≤ (SeededRandom.nextInt s n).2 := by
      rw [nextInt_seed]
      exact next_seed_nonneg hs
    have hs2 : 0 ≤ (SeededRandom.nextInt (SeededRandom.nextInt s n).2 n).2 := by
      rw [nextInt_seed]
      exact next_seed_nonneg hs1
    have hs3 : 0 ≤ (SeededRandom.nextInt (SeededRandom.nextInt
        (SeededRandom.nextInt s n).2 n).2 6).2 := by
      rw [nextInt_seed]
      exact next_seed_nonneg hs2
    have hs4 : 0 ≤ (SeededRandom.nextInt (SeededRandom.nextInt (SeededRandom.nextInt
        (SeededRandom.nextInt s n).2 n).2 6).2 6).2 := by
      rw [nextInt_seed]
      exact next_seed_nonneg hs3
    have hn' : (1 : Int) ≤ (n : Int) := by exact_mod_cast hn
    have hr1a := nextInt_nonneg hs (by omega : (0 : Int) ≤ (n : Int))
    have hr1b := nextInt_lt hs hn'
    have hr2a := nextInt_nonneg hs1 (by omega : (0 : Int) ≤ (n : Int))
    have hr2b := nextInt_lt hs1 hn'
    have hd1a := nextInt_nonneg hs2 (by omega : (0 : Int) ≤ (6 : Int))
    have hd1b := nextInt_lt hs2 (by omega : (1 : Int) ≤ (6 : Int))
    have hd2a := nextInt_nonneg hs3 (by omega : (0 : Int) ≤ (6 : Int))
    have hd2b := nextInt_lt hs3 (by omega : (1 : Int) ≤ (6 : Int))
    simp only [augmentLoop]
    rw [isDoorAvailable?_eq hinv.1 hr1a hr1b hd1a hd1b]
    simp only [Option.bind_eq_bind', Option.some_bind]
    by_cases hb1 : (doorOf rooms (SeededRandom.nextInt s n).1.toNat
        (SeededRandom.nextInt (SeededRandom.nextInt (SeededRandom.nextInt s n).2 n).2 6).1.toNat).toRoom = -1
    · rw [if_pos (by simp [hb1])]
      rw [isDoorAvailable?_eq hinv.1 hr2a hr2b hd2a hd2b]
      simp only [Option.bind_eq_bind', Option.some_bind]
      by_cases hb2 : (doorOf rooms (SeededRandom.nextInt (SeededRandom.nextInt s n).2 n).1.toNat
          (SeededRandom.nextInt (SeededRandom.nextInt (SeededRandom.nextInt
            (SeededRandom.nextInt s n).2 n).2 6).2 6).1.toNat).toRoom = -1
      · rw [if_pos (by simp [hb2])]
        obtain ⟨hinvc, _, _, hframec⟩ := connect_preserves hinv
          (by omega : (SeededRandom.nextInt s n).1.toNat < n)
          (by omega) (by omega) (by omega) hb1 hb2
        obtain ⟨rooms', s', heq', hinv', hs', hframe'⟩ := ih _ _ hinvc hs4
        refine ⟨rooms', s', heq', hinv', hs', fun r d hrd => ?_⟩
        rw [hframe' r d (by rw [hframec r d hrd]; exact hrd), hframec r d hrd]
      · rw [if_neg (by simp [hb2])]
        exact ih rooms _ hinv hs4
    · rw [if_neg (by simp [hb1])]
      exact ih rooms _ hinv hs4

theorem closurePick_spec {n : Nat} (hn : 1 ≤ n) {rooms : List Room} (hs : RoomsShape n rooms)
    {roomId door : Nat} (hr : roomId < n) (hd : door < 6) :
    ∀ (fuel : Nat) {s : Int}, 0 ≤ s →
    ∃ t1 t2 s2, closurePick n rooms roomId door fuel s = some (t1, t2, s2) ∧
      0 ≤ s2 ∧ 0 ≤ t1 ∧ t1 < (n : Int) ∧ 0 ≤ t2 ∧ t2 < 6 ∧
      ((doorOf rooms t1.toNat t2.toNat).toRoom = -1 ∨
        (t1 = (roomId : Int) ∧ t2 = (door : Int))) := by
  intro fuel
  induction fuel with
  | zero =>
    intro s hs0
    exact ⟨(roomId : Int), (door : Int), s, rfl, hs0, by omega, by omega, by omega,
      by omega, Or.inr ⟨rfl, rfl⟩⟩
  | succ fuel ih =>
    intro s hs0
    have hs1 : 0 ≤ (SeededRandom.nextInt s n).2 := by
      rw [nextInt_seed]
      exact next_seed_nonneg hs0
    have hs2 : 0 ≤ (SeededRandom.nextInt (SeededRandom.nextInt s n).2 6).2 := by
      rw [nextInt_seed]
      exact next_seed_nonneg hs1
    have hn' : (1 : Int) ≤ (n : Int) := by exact_mod_cast hn
    have hta := nextInt_nonneg hs0 (by omega : (0 : Int) ≤ (n : Int))
    have htb := nextInt_lt hs0 hn'
    have hda := nextInt_nonneg hs1 (by omega : (0 : Int) ≤ (6 : Int))
    have hdb := nextInt_lt hs1 (by omega : (1 : Int) ≤ (6 : Int))
    simp only [closurePick]
    by_cases hf0 : fuel = 0
    · rw [if_pos hf0]
      exact ⟨(roomId : Int), (door : Int), _, rfl, hs2, by omega, by omega, by omega,
        by omega, Or.inr ⟨rfl, rfl⟩⟩
    · rw [if_neg hf0]
      rw [isDoorAvailable?_eq hs hta htb hda hdb]
      simp only [Option.bind_eq_bind', Option.some_bind]
      by_cases hcond : (!((doorOf rooms (SeededRandom.nextInt s n).1.toNat
            (SeededRandom.nextInt (SeededRandom.nextInt s n).2 6).1.toNat).toRoom == -1) &&
          !((SeededRandom.nextInt s n).1 == (roomId : Int) &&
            (SeededRandom.nextInt (SeededRandom.nextInt s n).2 6).1 == (door : Int))) = true
      · rw [if_pos hcond]
        exact ih hs2
      · rw [if_neg hcond]
        refine ⟨(SeededRandom.nextInt s n).1,
          (SeededRandom.nextInt (SeededRandom.nextInt s n).2 6).1,
          (SeededRandom.nextInt (SeededRandom.nextInt s n).2 6).2, rfl,
          hs2, hta, htb, hda, hdb, ?_⟩
        by_cases ha : (doorOf rooms (SeededRandom.nextInt s n).1.toNat
            (SeededRandom.nextInt (SeededRandom.nextInt s n).2 6).1.toNat).toRoom = -1
        · exact Or.inl ha
        · right
          by_cases hb1 : (SeededRandom.nextInt s n).1 = (roomId : Int)
          · by_cases hb2 :
                (SeededRandom.nextInt (SeededRandom.nextInt s n).2 6).1 = (door : Int)
            · exact ⟨hb1, hb2⟩
            · exact absurd (by simp [ha, hb2]) hcond
          · exact absurd (by simp [ha, hb1]) hcond

theorem closureDoor_spec {n : Nat} (hn : 1 ≤ n) {rooms : List Room} (hinv : DoorsInv n rooms)
    {roomId door : Nat} (hr : roomId < n) (hd : door < 6) {s : Int} (hs0 : 0 ≤ s) :
    ∃ rooms' s', closureDoor n rooms roomId door s = some (rooms', s') ∧
      DoorsInv n rooms' ∧ 0 ≤ s' ∧ (doorOf rooms' roomId door).toRoom ≠ -1 ∧
      ∀ r d, (doorOf rooms r d).toRoom ≠ -1 → doorOf rooms' r d = doorOf rooms r d := by
  unfold closureDoor
  rw [isDoorAvailable?_eq hinv.1 (by omega) (by exact_mod_cast hr) (by omega)
    (by exact_mod_cast hd)]
  simp only [Option.bind_eq_bind', Option.some_bind, Int.toNat_natCast]
  by_cases hav : (doorOf rooms roomId door).toRoom = -1
  · rw [if_pos (by simp [hav])]
    obtain ⟨t1, t2, s2, hpick, hs2, h1a, h1b, h2a, h2b, hdis⟩ :=
      closurePick_spec hn hinv.1 hr hd 21 hs0
    rw [hpick]
    simp only [Option.bind_eq_bind', Option.some_bind]
    have hav2 : (doorOf rooms t1.toNat t2.toNat).toRoom = -1 := by
      rcases hdis with h | ⟨he1, he2⟩
      · exact h
      · rw [he1, he2]
        simp only [Int.toNat_natCast]
        exact hav
    obtain ⟨hinvc, hc1, hc2, hframec⟩ :=
      connect_preserves hinv hr hd (by omega : t1.toNat < n) (by omega : t2.toNat < 6)
        hav hav2
    refine ⟨_, _, rfl, hinvc, hs2, ?_, fun r d hrd => hframec r d hrd⟩
    rw [hc1, mk_toRoom]
    omega
  · rw [if_neg (by simp [hav])]
    exact ⟨rooms, s, rfl, hinv, hs0, hav, fun r d _ => rfl⟩

theorem closureDoorLoop_spec {n : Nat} (hn : 1 ≤ n) (roomId : Nat) (hr : roomId < n) :
    ∀ (ds : List Nat) (rooms : List Room) (s : Int), DoorsInv n rooms → 0 ≤ s →
      (∀ d ∈ ds, d < 6) →
    ∃ rooms' s', closureDoorLoop n roomId ds rooms s = some (rooms', s') ∧
      DoorsInv n rooms' ∧ 0 ≤ s' ∧
      (∀ d ∈ ds, (doorOf rooms' roomId d).toRoom ≠ -1) ∧
      ∀ r d, (doorOf rooms r d).toRoom ≠ -1 → doorOf rooms' r d = doorOf rooms r d := by
  intro ds
  induction ds with
  | nil =>
    intro rooms s hinv hs0 _
    exact ⟨rooms, s, rfl, hinv, hs0, by simp, fun r d _ => rfl⟩
  | cons d0 ds ih =>
    intro rooms s hinv hs0 hds
    obtain ⟨rooms1, s1, he1, hinv1, hs1, hassigned1, hframe1⟩ :=
      closureDoor_spec hn hinv hr (hds d0 (by simp)) hs0
    obtain ⟨rooms', s', he2, hinv', hs', hassigned', hframe'⟩ :=
      ih rooms1 s1 hinv1 hs1 (fun d hdm => hds d (by simp [hdm]))
    refine ⟨rooms', s', ?_, hinv', hs', ?_, ?_⟩
    · simp only [closureDoorLoop]
      rw [he1]
      simp only [Option.bind_eq_bind', Option.some_bind]
      exact he2
    · intro d hdm
      rcases List.mem_cons.mp hdm with rfl | h
      · rw [hframe' roomId d hassigned1]
        exact hassigned1
      · exact hassigned' d h
    · intro r d hrd
      rw [hframe' r d (by rw [hframe1 r d hrd]; exact hrd), hframe1 r d hrd]

theorem closureRoomLoop_spec {n : Nat} (hn : 1 ≤ n) :
    ∀ (rs : List Nat) (rooms : List Room) (s : Int), DoorsInv n rooms → 0 ≤ s →
      (∀ r ∈ rs, r < n) →
    ∃ rooms' s', closureRoomLoop n rs rooms s = some (rooms', s') ∧
      DoorsInv n rooms' ∧ 0 ≤ s' ∧
      (∀ r ∈ rs, ∀ d, d < 6 → (doorOf rooms' r d).toRoom ≠ -1) ∧
      ∀ r d, (doorOf rooms r d).toRoom ≠ -1 → doorOf rooms' r d = doorOf rooms r d := by
  intro rs
  induction rs with
  | nil =>
    intro rooms s hinv hs0 _
    exact ⟨rooms, s, rfl, hinv, hs0, by simp, fun r d _ => rfl⟩
  | cons r0 rs ih =>
    intro rooms s hinv hs0 hrs
    obtain ⟨rooms1, s1, he1, hinv1, hs1, hassigned1, hframe1⟩ :=
      closureDoorLoop_spec hn r0 (hrs r0 (by simp)) (List.range 6) rooms s hinv hs0
        (fun d hdm => List.mem_range.mp hdm)
    obtain ⟨rooms', s', he2, hinv', hs', hassigned', hframe'⟩ :=
      ih rooms1 s1 hinv1 hs1 (fun r hrm => hrs r (by simp [hrm]))
    refine ⟨rooms', s', ?_, hinv', hs', ?_, ?_⟩
    · simp only [closureRoomLoop]
      rw [he1]
      simp only [Option.bind_eq_bind', Option.some_bind]
      exact he2
    · intro r hrm d hd6
      rcases List.mem_cons.mp hrm with rfl | h
      · have := hassigned1 d (List.mem_range.mpr hd6)
        rw [hframe' r d this]
        exact this
      · exact hassigned' r h d hd6
    · intro r d hrd
      rw [hframe' r d (by rw [hframe1 r d hrd]; exact hrd), hframe1 r d hrd]

theorem generateBuilding_spec (rl : Bool) {n : Nat} (hn : 1 ≤ n) {s : Int} (hs : 0 ≤ s) :
    ∃ b, generateBuilding rl n s = some b ∧ BuildingWF n b ∧
      ∀ r d, (chainDoors (n - 1) r d).toRoom ≠ -1 →
        doorOf b.rooms r d = chainDoors (n - 1) r d := by
  have hshape0 := initRooms_shape rl n s
  have hinv0 : DoorsInv n (initRoomsAux rl n 0 s).1 := by
    refine ⟨hshape0, ?_, ?_⟩
    · intro r hr d hd hne
      rw [initRooms_unassigned] at hne
      simp at hne
    · intro r hr d hd hne
      rw [initRooms_unassigned] at hne
      simp at hne
  have hD0 : ∀ r d, doorOf (initRoomsAux rl n 0 s).1 r d = chainDoors 0 r d := by
    intro r d
    rw [initRooms_unassigned, chainDoors_zero]
  have hrange1 : List.range (0 + 1) = [0] := rfl
  obtain ⟨htr1, htr2⟩ :=
    spanningLoop_trace (n := n) (n + 1) 0 (initRoomsAux rl n 0 s).1 hinv0 (by omega) hD0
      (by omega)
  rw [hrange1] at htr1 htr2
  obtain ⟨rooms2, s2, heq2, hinv2, hs2, hframe2⟩ :=
    augmentLoop_inv hn (n * 2) (spanningLoop n (n + 1) [0] [0] (initRoomsAux rl n 0 s).1)
      (initRoomsAux rl n 0 s).2 htr1 (initRoomsAux_seed_nonneg rl n 0 hs)
  obtain ⟨rooms3, s3, heq3, hinv3, hs3, hassigned3, hframe3⟩ :=
    closureRoomLoop_spec hn (List.range n) rooms2 s2 hinv2 hs2
      (fun r hrm => List.mem_range.mp hrm)
  have hgen : generateBuilding rl n s =
      (augmentLoop n (n * 2) (spanningLoop n (n + 1) [0] [0] (initRoomsAux rl n 0 s).1)
        (initRoomsAux rl n 0 s).2).bind
        (fun r2 => (closureRoomLoop n (List.range n) r2.1 r2.2).bind
          (fun r3 => some { rooms := r3.1, startingRoom := 0 })) := rfl
  refine ⟨{ rooms := rooms3, startingRoom := 0 }, ?_, ?_, ?_⟩
  · rw [hgen, heq2]
    simp only [Option.some_bind]
    rw [heq3]
    rfl
  · refine ⟨hinv3.1, hinv3.2.1, hinv3.2.2, ?_, rfl⟩
    intro r hr d hd
    exact hassigned3 r (List.mem_range.mpr hr) d hd
  · intro r d hne
    show doorOf rooms3 r d = _
    have h1 : (doorOf (spanningLoop n (n + 1) [0] [0]
        (initRoomsAux rl n 0 s).1) r d).toRoom ≠ -1 := by
      rw [htr2 r d]
      exact hne
    have h2 : doorOf rooms2 r d = chainDoors (n - 1) r d := by
      rw [hframe2 r d h1, htr2 r d]
    have h2' : (doorOf rooms2 r d).toRoom ≠ -1 := by
      rw [h2]
      exact hne
    rw [hframe3 r d h2', h2]

/-! ### Invariants conditional on successful completion (any seed) -/

theorem isDoorAvailable?_inv {n : Nat} {rooms : List Room} (hs : RoomsShape n rooms)
    {r d : Int} {b : Bool} (h : isDoorAvailable? rooms r d = some b) :
    0 ≤ r ∧ r < (n : Int) ∧ 0 ≤ d ∧ d < 6 ∧
      b = ((doorOf rooms r.toNat d.toNat).toRoom == -1) := by
  by_cases hr : 0 ≤ r ∧ r < (n : Int)
  · by_cases hd : 0 ≤ d ∧ d < (6 : Int)
    · rw [isDoorAvailable?_eq hs hr.1 hr.2 hd.1 hd.2] at h
      exact ⟨hr.1, hr.2, hd.1, hd.2, (Option.some_inj.mp h).symm⟩
    · exfalso
      have hdnone : getDoor? rooms r d = none := by
        unfold getDoor?
        rw [getRoom?_eq hs hr.1 hr.2]
        show (idx? (rooms.getD r.toNat default).doors.length d).bind _ = none
        unfold idx?
        rw [(hs.2 r.toNat (by omega)).2]
        rw [if_neg (by exact_mod_cast hd)]
        rfl
      have hnone : isDoorAvailable? rooms r d = none := by
        unfold isDoorAvailable?
        rw [hdnone]
        rfl
      rw [hnone] at h
      exact Option.noConfusion h
  · exfalso
    have hrnone : getRoom? rooms r = none := by
      unfold getRoom? idx?
      rw [hs.1, if_neg hr]
      rfl
    have hdnone : getDoor? rooms r d = none := by
      unfold getDoor?
      rw [hrnone]
      rfl
    have hnone : isDoorAvailable? rooms r d = none := by
      unfold isDoorAvailable?
      rw [hdnone]
      rfl
    rw [hnone] at h
    exact Option.noConfusion h

theorem augmentLoop_cond {n : Nat} :
    ∀ (count : Nat) {rooms rooms' : List Room} {s s' : Int}, DoorsInv n rooms →
      augmentLoop n count rooms s = some (rooms', s') → DoorsInv n rooms' := by
  intro count
  induction count with
  | zero =>
    intro rooms rooms' s s' hinv heq
    simp only [augmentLoop, Option.some_inj, Prod.mk.injEq] at heq
    rw [← heq.1]
    exact hinv
  | succ count ih =>
    intro rooms rooms' s s' hinv heq
    simp only [augmentLoop] at heq
    cases hav1 : isDoorAvailable? rooms (SeededRandom.nextInt s n).1
        (SeededRandom.nextInt (SeededRandom.nextInt (SeededRandom.nextInt s n).2 n).2 6).1 with
    | none =>
      rw [hav1] at heq
      simp at heq
    | some b1 =>
      rw [hav1] at heq
      simp only [Option.bind_eq_bind', Option.some_bind] at heq
      obtain ⟨hr1a, hr1b, hd1a, hd1b, hb1⟩ := isDoorAvailable?_inv hinv.1 hav1
      cases b1 with
      | false =>
        rw [if_neg (by simp)] at heq
        exact ih hinv heq
      | true =>
        rw [if_pos rfl] at heq
        cases hav2 : isDoorAvailable? rooms
            (SeededRandom.nextInt (SeededRandom.nextInt s n).2 n).1
            (SeededRandom.nextInt (SeededRandom.nextInt (SeededRandom.nextInt
              (SeededRandom.nextInt s n).2 n).2 6).2 6).1 with
        | none =>
          rw [hav2] at heq
          simp at heq
        | some b2 =>
          rw [hav2] at heq
          simp only [Option.bind_eq_bind', Option.some_bind] at heq
          obtain ⟨hr2a, hr2b, hd2a, hd2b, hb2⟩ := isDoorAvailable?_inv hinv.1 hav2
          cases b2 with
          | false =>
            rw [if_neg (by simp)] at heq
            exact ih hinv heq
          | true =>
            rw [if_pos rfl] at heq
            have hbb1 : (doorOf rooms (SeededRandom.nextInt s n).1.toNat
                (SeededRandom.nextInt (SeededRandom.nextInt (SeededRandom.nextInt s n).2 n).2
                  6).1.toNat).toRoom = -1 := by
              have h := hb1.symm
              simpa using h
            have hbb2 : (doorOf rooms
                (SeededRandom.nextInt (SeededRandom.nextInt s n).2 n).1.toNat
                (SeededRandom.nextInt (SeededRandom.nextInt (SeededRandom.nextInt
                  (SeededRandom.nextInt s n).2 n).2 6).2 6).1.toNat).toRoom = -1 := by
              have h := hb2.symm
              simpa using h
            obtain ⟨hinvc, _, _, _⟩ := connect_preserves hinv
              (by omega : (SeededRandom.nextInt s n).1.toNat < n) (by omega)
              (by omega) (by omega) hbb1 hbb2
            exact ih hinvc heq

theorem closurePick_cond {n : Nat} {rooms : List Room} (hs : RoomsShape n rooms)
    {roomId door : Nat} (hr : roomId < n) (hd : door < 6) :
    ∀ (fuel : Nat) {s t1 t2 s2 : Int},
      closurePick n rooms roomId door fuel s = some (t1, t2, s2) →
      0 ≤ t1 ∧ t1 < (n : Int) ∧ 0 ≤ t2 ∧ t2 < 6 ∧
        ((doorOf rooms t1.toNat t2.toNat).toRoom = -1 ∨
          (t1 = (roomId : Int) ∧ t2 = (door : Int))) := by
  intro fuel
  induction fuel with
  | zero =>
    intro s t1 t2 s2 heq
    simp only [closurePick, Option.some_inj, Prod.mk.injEq] at heq
    obtain ⟨h1, h2, h3⟩ := heq
    subst h1
    subst h2
    exact ⟨by omega, by exact_mod_cast hr, by omega, by exact_mod_cast hd,
      Or.inr ⟨rfl, rfl⟩⟩
  | succ fuel ih =>
    intro s t1 t2 s2 heq
    simp only [closurePick] at heq
    by_cases hf0 : fuel = 0
    · rw [if_pos hf0] at heq
      simp only [Option.some_inj, Prod.mk.injEq] at heq
      obtain ⟨h1, h2, h3⟩ := heq
      subst h1
      subst h2
      exact ⟨by omega, by exact_mod_cast hr, by omega, by exact_mod_cast hd,
        Or.inr ⟨rfl, rfl⟩⟩
    · rw [if_neg hf0] at heq
      cases hav : isDoorAvailable? rooms (SeededRandom.nextInt s n).1
          (SeededRandom.nextInt (SeededRandom.nextInt s n).2 6).1 with
      | none =>
        rw [hav] at heq
        simp at heq
      | some b =>
        rw [hav] at heq
        simp only [Option.bind_eq_bind', Option.some_bind] at heq
        obtain ⟨ha1, ha2, ha3, ha4, hb⟩ := isDoorAvailable?_inv hs hav
        split at heq
        next hcond => exact ih heq
        next hcond =>
          simp only [Option.some_inj, Prod.mk.injEq] at heq
          obtain ⟨h1, h2, h3⟩ := heq
          subst h1
          subst h2
          refine ⟨ha1, ha2, ha3, ha4, ?_⟩
          by_cases hx : (doorOf rooms (SeededRandom.nextInt s n).1.toNat
              (SeededRandom.nextInt (SeededRandom.nextInt s n).2 6).1.toNat).toRoom = -1
          · exact Or.inl hx
          · right
            have hbf : b = false := by
              rw [hb]
              simp [hx]
            by_cases he1 : (SeededRandom.nextInt s n).1 = (roomId : Int)
            · by_cases he2 :
                  (SeededRandom.nextInt (SeededRandom.nextInt s n).2 6).1 = (door : Int)
              · exact ⟨he1, he2⟩
              · exact absurd (by simp [hbf, he2]) hcond
            · exact absurd (by simp [hbf, he1]) hcond

theorem closureDoor_cond {n : Nat} {rooms rooms' : List Room} (hinv : DoorsInv n rooms)
    {roomId door : Nat} (hr : roomId < n) (hd : door < 6) {s s' : Int}
    (heq : closureDoor n rooms roomId door s = some (rooms', s')) : DoorsInv n rooms' := by
  unfold closureDoor at heq
  rw [isDoorAvailable?_eq hinv.1 (by omega) (by exact_mod_cast hr) (by omega)
    (by exact_mod_cast hd)] at heq
  simp only [Option.bind_eq_bind', Option.some_bind, Int.toNat_natCast] at heq
  split at heq
  next havail =>
    cases hpick : closurePick n rooms roomId door 21 s with
    | none =>
      rw [hpick] at heq
      simp at heq
    | some t =>
      obtain ⟨t1, t2, s2⟩ := t
      rw [hpick] at heq
      simp only [Option.bind_eq_bind', Option.some_bind] at heq
      obtain ⟨hb1, hb2, hb3, hb4, hdis⟩ := closurePick_cond hinv.1 hr hd 21 hpick
      have hav : (doorOf rooms roomId door).toRoom = -1 := by simpa using havail
      have hav2 : (doorOf rooms t1.toNat t2.toNat).toRoom = -1 := by
        rcases hdis with h | ⟨he1, he2⟩
        · exact h
        · rw [he1, he2]
          simp only [Int.toNat_natCast]
          exact hav
      obtain ⟨hinvc, _, _, _⟩ := connect_preserves hinv hr hd
        (by omega : t1.toNat < n) (by omega : t2.toNat < 6) hav hav2
      simp only [Option.pure_def, Option.some_inj, Prod.mk.injEq] at heq
      rw [← heq.1]
      exact hinvc
  next havail =>
    simp only [Option.pure_def, Option.some_inj, Prod.mk.injEq] at heq
    rw [← heq.1]
    exact hinv

theorem closureDoorLoop_cond {n : Nat} {roomId : Nat} (hr : roomId < n) :
    ∀ (ds : List Nat) {rooms rooms' : List Room} {s s' : Int}, DoorsInv n rooms →
      (∀ d ∈ ds, d < 6) →
      closureDoorLoop n roomId ds rooms s = some (rooms', s') → DoorsInv n rooms' := by
  intro ds
  induction ds with
  | nil =>
    intro rooms rooms' s s' hinv _ heq
    simp only [closureDoorLoop, Option.some_inj, Prod.mk.injEq] at heq
    rw [← heq.1]
    exact hinv
  | cons d0 ds ih =>
    intro rooms rooms' s s' hinv hds heq
    simp only [closureDoorLoop] at heq
    cases hstep : closureDoor n rooms roomId d0 s with
    | none =>
      rw [hstep] at heq
      simp at heq
    | some p =>
      obtain ⟨rooms1, s1⟩ := p
      rw [hstep] at heq
      simp only [Option.bind_eq_bind', Option.some_bind] at heq
      exact ih (closureDoor_cond hinv hr (hds d0 (by simp)) hstep)
        (fun d hdm => hds d (by simp [hdm])) heq

theorem closureRoomLoop_cond {n : Nat} :
    ∀ (rs : List Nat) {rooms rooms' : List Room} {s s' : Int}, DoorsInv n rooms →
      (∀ r ∈ rs, r < n) →
      closureRoomLoop n rs rooms s = some (rooms', s') → DoorsInv n rooms' := by
  intro rs
  induction rs with
  | nil =>
    intro rooms rooms' s s' hinv _ heq
    simp only [closureRoomLoop, Option.some_inj, Prod.mk.injEq] at heq
    rw [← heq.1]
    exact hinv
  | cons r0 rs ih =>
    intro rooms rooms' s s' hinv hrs heq
    simp only [closureRoomLoop] at heq
    cases hstep : closureDoorLoop n r0 (List.range 6) rooms s with
    | none =>
      rw [hstep] at heq
      simp at heq
    | some p =>
      obtain ⟨rooms1, s1⟩ := p
      rw [hstep] at heq
      simp only [Option.bind_eq_bind', Option.some_bind] at heq
      exact ih (closureDoorLoop_cond (hrs r0 (by simp)) (List.range 6) hinv
        (fun d hdm => List.mem_range.mp hdm) hstep) (fun r hrm => hrs r (by simp [hrm])) heq

theorem generateBuilding_cond {rl : Bool} {n : Nat} {s : Int} {b : Building}
    (h : generateBuilding rl n s = some b) :
    RoomsShape n b.rooms ∧ ValidDoors n b.rooms ∧ SymDoors n b.rooms ∧
      b.startingRoom = 0 := by
  have hshape0 := initRooms_shape rl n s
  have hinv0 : DoorsInv n (initRoomsAux rl n 0 s).1 := by
    refine ⟨hshape0, ?_, ?_⟩
    · intro r hr d hd hne
      rw [initRooms_unassigned] at hne
      simp at hne
    · intro r hr d hd hne
      rw [initRooms_unassigned] at hne
      simp at hne
  have hinv1 : DoorsInv n (spanningLoop n (n + 1) [0] [0] (initRoomsAux rl n 0 s).1) := by
    by_cases hn : 1 ≤ n
    · have hD0 : ∀ r d, doorOf (initRoomsAux rl n 0 s).1 r d = chainDoors 0 r d := by
        intro r d
        rw [initRooms_unassigned, chainDoors_zero]
      have hrange1 : List.range (0 + 1) = [0] := rfl
      have htr := spanningLoop_trace (n := n) (n + 1) 0 (initRoomsAux rl n 0 s).1 hinv0
        (by omega) hD0 (by omega)
      rw [hrange1] at htr
      exact htr.1
    · have hn0 : n = 0 := by omega
      subst hn0
      have hid : spanningLoop 0 (0 + 1) [0] [0] (initRoomsAux rl 0 0 s).1 =
          (initRoomsAux rl 0 0 s).1 := by
        simp [spanningLoop]
      rw [hid]
      exact hinv0
  have hgen : generateBuilding rl n s =
      (augmentLoop n (n * 2) (spanningLoop n (n + 1) [0] [0] (initRoomsAux rl n 0 s).1)
        (initRoomsAux rl n 0 s).2).bind
        (fun r2 => (closureRoomLoop n (List.range n) r2.1 r2.2).bind
          (fun r3 => some { rooms := r3.1, startingRoom := 0 })) := rfl
  rw [hgen] at h
  cases haug : augmentLoop n (n * 2) (spanningLoop n (n + 1) [0] [0]
      (initRoomsAux rl n 0 s).1) (initRoomsAux rl n 0 s).2 with
  | none =>
    rw [haug] at h
    simp at h
  | some p2 =>
    obtain ⟨rooms2, s2⟩ := p2
    rw [haug] at h
    simp only [Option.some_bind] at h
    have hinv2 := augmentLoop_cond (n * 2) hinv1 haug
    cases hclo : closureRoomLoop n (List.range n) rooms2 s2 with
    | none =>
      rw [hclo] at h
      simp at h
    | some p3 =>
      obtain ⟨rooms3, s3⟩ := p3
      rw [hclo] at h
      simp only [Option.some_bind, Option.some_inj] at h
      have hinv3 := closureRoomLoop_cond (List.range n) hinv2
        (fun r hrm => List.mem_range.mp hrm) hclo
      rw [← h]
      exact ⟨hinv3.1, hinv3.2.1, hinv3.2.2, rfl⟩

/-! ### Reachability along the spanning chain -/

theorem chainDoors_zero0 {k : Nat} (h : 1 ≤ k) : chainDoors k 0 0 = ⟨1, 0⟩ := by
  unfold chainDoors
  rw [if_pos ⟨rfl, rfl, h⟩]

theorem chainDoors_fwd {k r : Nat} (h1 : 1 ≤ r) (h2 : r + 1 ≤ k) :
    chainDoors k r 1 = ⟨((r + 1 : Nat) : Int), 0⟩ := by
  unfold chainDoors
  rw [if_neg (by omega), if_neg (by omega), if_pos ⟨h1, h2, rfl⟩]

theorem reachable_of_chain {n : Nat} {b : Building} (hstart : b.startingRoom = 0)
    (hchain : ∀ r d, (chainDoors (n - 1) r d).toRoom ≠ -1 →
      doorOf b.rooms r d = chainDoors (n - 1) r d) :
    ∀ r, r < n → Reachable b r := by
  intro r
  induction r with
  | zero =>
    intro _
    have h := Reachable.start (b := b)
    rw [hstart] at h
    exact h
  | succ r ih =>
    intro hr
    have hreach := ih (by omega)
    by_cases hr0 : r = 0
    · subst hr0
      have hcd : chainDoors (n - 1) 0 0 = ⟨1, 0⟩ := chainDoors_zero0 (by omega)
      have hD : doorOf b.rooms 0 0 = ⟨1, 0⟩ := by
        rw [hchain 0 0 (by rw [hcd, mk_toRoom]; omega), hcd]
      have hstep := Reachable.step hreach (by omega : (0 : Nat) < 6)
        (by rw [hD, mk_toRoom]; omega)
      have hv : (doorOf b.rooms 0 0).toRoom.toNat = 1 := by
        rw [hD, mk_toRoom]
        rfl
      rw [hv] at hstep
      exact hstep
    · have hcd : chainDoors (n - 1) r 1 = ⟨((r + 1 : Nat) : Int), 0⟩ :=
        chainDoors_fwd (by omega) (by omega)
      have hD : doorOf b.rooms r 1 = ⟨((r + 1 : Nat) : Int), 0⟩ := by
        rw [hchain r 1 (by rw [hcd, mk_toRoom]; omega), hcd]
      have hstep := Reachable.step hreach (by omega : (1 : Nat) < 6)
        (by rw [hD, mk_toRoom]; omega)
      have hv : (doorOf b.rooms r 1).toRoom.toNat = r + 1 := by
        rw [hD, mk_toRoom, Int.toNat_natCast]
      rw [hv] at hstep
      exact hstep

/-! ### Claim C5: the seeded random generator -/

/-- Claim C5, counterexample, in two parts.  (a) The claim quantifies over
every integer seed, but with seed `-1` the first value produced by `next()`
is negative (JavaScript's `%` keeps the dividend's sign), so it does not lie
in `[0, 1)`, and `nextInt(6)` on that seed is negative rather than in
`[0, 6)`.  (b) The claimed recurrence `seed = (seed * 1103515245 + 12345)
mod 2^31` is false of the program even for nonnegative seeds: JavaScript
multiplies in doubles, and on the second call from the repo's default seed
12345 the intermediate seed 1406932606 gives a product above `2^53` that the
double rounds, so the program computes 654583808 where the exact recurrence
gives 654583775. -/
theorem seededRandom_counterexample :
    ((SeededRandom.next (-1)).1 < 0 ∧ (SeededRandom.nextInt (-1) 6).1 < 0) ∧
    (SeededRandom.seedAfter 12345 1 = 1406932606 ∧
      SeededRandom.seedAfter 12345 2 = 654583808 ∧
      (SeededRandom.seedAfter 12345 1 * 1103515245 + 12345) % 2 ^ 31 = 654583775) := by
  refine ⟨⟨?_, by decide⟩, by decide, by decide, by decide⟩
  rw [next_val_eq]
  have h2 : (SeededRandom.next (-1)).2 = -1103502900 := by decide
  rw [h2]
  norm_num

/-- Claim C5 (amended): for every integer seed `≥ 0` and every number of
calls, every value produced by `next()` lies in `[0, 1)` and for every
`max ≥ 1` the value `nextInt(max) = ⌊next() * max⌋` lies in `[0, max)`; the
seed update follows the recurrence
`seed = (seed * 1103515245 + 12345) mod 2^31` exactly whenever the
intermediate value `seed * 1103515245 + 12345` stays below `2^53` — beyond
that the double-precision product is rounded and the program's sequence
leaves the exact recurrence (see the counterexample). -/
theorem seededRandom_spec (s : Int) (hs : 0 ≤ s) (k : Nat) :
    (SeededRandom.seedAfter s k * 1103515245 + 12345 < 2 ^ 53 →
      (SeededRandom.next (SeededRandom.seedAfter s k)).2 =
        (SeededRandom.seedAfter s k * 1103515245 + 12345) % 2 ^ 31) ∧
    0 ≤ (SeededRandom.next (SeededRandom.seedAfter s k)).1 ∧
    (SeededRandom.next (SeededRandom.seedAfter s k)).1 < 1 ∧
    ∀ max : Int, 1 ≤ max →
      0 ≤ (SeededRandom.nextInt (SeededRandom.seedAfter s k) max).1 ∧
      (SeededRandom.nextInt (SeededRandom.seedAfter s k) max).1 < max := by
  have hk := seedAfter_nonneg hs k
  exact ⟨fun hsmall => next_seed_eq_emod hk hsmall, next_val_nonneg hk,
    next_val_lt_one hk,
    fun max hm => ⟨nextInt_nonneg hk (by omega), nextInt_lt hk hm⟩⟩

/-- Witness for `seededRandom_spec` at seed 12345: the first call (whose
intermediate value is below `2^53`) follows the exact recurrence, and after
one step the value and `nextInt 6` bounds hold. -/
theorem seededRandom_spec_witness :
    (SeededRandom.next (SeededRandom.seedAfter 12345 0)).2 =
      (SeededRandom.seedAfter 12345 0 * 1103515245 + 12345) % 2 ^ 31 ∧
    0 ≤ (SeededRandom.next (SeededRandom.seedAfter 12345 1)).1 ∧
    (SeededRandom.next (SeededRandom.seedAfter 12345 1)).1 < 1 ∧
    0 ≤ (SeededRandom.nextInt (SeededRandom.seedAfter 12345 1) 6).1 ∧
    (SeededRandom.nextInt (SeededRandom.seedAfter 12345 1) 6).1 < 6 := by
  obtain ⟨hrec, _, _, _⟩ := seededRandom_spec 12345 (by decide) 0
  obtain ⟨_, h2, h3, h4⟩ := seededRandom_spec 12345 (by decide) 1
  exact ⟨hrec (by decide), h2, h3, (h4 6 (by decide)).1, (h4 6 (by decide)).2⟩

/-! ### Claim C2: all doors assigned to valid targets -/

/-- Claim C2, counterexample: the claim quantifies over every seed, but with
seed `-1` `nextInt` returns a negative room index in the augmentation phase
and `generateBuilding(1, -1)` throws a `TypeError` reading `rooms[-1].doors`
(modelled as `none`), so no maze with the claimed properties is returned. -/
theorem generateBuilding_neg_seed_counterexample :
    generateBuilding false 1 (-1) = none := by
  decide

/-- Claim C2 (amended to nonnegative seeds): for every `room_count ≥ 1` and
every seed `≥ 0`, `generateBuilding` (in both labelling variants) returns a
maze in which every room has exactly six doors and every door is assigned
(`toRoom ≠ -1`) to a valid target: a room index in `[0, room_count)` and a
door index in `[0, 6)`. -/
theorem generateBuilding_all_doors_assigned (rl : Bool) (n : Nat) (s : Int)
    (hn : 1 ≤ n) (hs : 0 ≤ s) :
    ∃ b, generateBuilding rl n s = some b ∧ b.rooms.length = n ∧
      ∀ r, r < n → (b.rooms.getD r default).doors.length = 6 ∧
        ∀ d, d < 6 → (doorOf b.rooms r d).toRoom ≠ -1 ∧
          0 ≤ (doorOf b.rooms r d).toRoom ∧ (doorOf b.rooms r d).toRoom < (n : Int) ∧
          0 ≤ (doorOf b.rooms r d).toDoor ∧ (doorOf b.rooms r d).toDoor < 6 := by
  obtain ⟨b, hgen, hwf, _⟩ := generateBuilding_spec rl hn hs
  obtain ⟨hshape, hvalid, hsym, htotal, hstart⟩ := hwf
  refine ⟨b, hgen, hshape.1, fun r hr => ⟨(hshape.2 r hr).2, fun d hd => ?_⟩⟩
  have hne := htotal r hr d hd
  obtain ⟨h1, h2, h3, h4⟩ := hvalid r hr d hd hne
  exact ⟨hne, h1, h2, h3, h4⟩

/-- Witness for `generateBuilding_all_doors_assigned` at `(3, 12345)`. -/
theorem generateBuilding_all_doors_assigned_witness :
    ∃ b, generateBuilding false 3 12345 = some b ∧ b.rooms.length = 3 ∧
      ∀ r, r < 3 → (b.rooms.getD r default).doors.length = 6 ∧
        ∀ d, d < 6 → (doorOf b.rooms r d).toRoom ≠ -1 ∧
          0 ≤ (doorOf b.rooms r d).toRoom ∧ (doorOf b.rooms r d).toRoom < ((3 : Nat) : Int) ∧
          0 ≤ (doorOf b.rooms r d).toDoor ∧ (doorOf b.rooms r d).toDoor < 6 :=
  generateBuilding_all_doors_assigned false 3 12345 (by decide) (by decide)

/-! ### Claim C3: all rooms reachable from the starting room -/

/-- Claim C3, counterexample: the claim quantifies over every seed, but with
seed `-1` the builder (here the random-label variant) crashes in the
augmentation phase (modelled as `none`), so no maze whose rooms are all
reachable is returned. -/
theorem generateBuilding_reach_neg_seed_counterexample :
    generateBuilding true 1 (-1) = none := by
  decide

/-- Claim C3 (amended to nonnegative seeds): for every `room_count ≥ 1` and
every seed `≥ 0`, every room of the returned maze is reachable from room 0 by
door traversals; the chain built by the spanning-tree phase is never broken
by the later phases (its doors are only ever copied, never reassigned). -/
theorem generateBuilding_all_rooms_reachable (rl : Bool) (n : Nat) (s : Int)
    (hn : 1 ≤ n) (hs : 0 ≤ s) :
    ∃ b, generateBuilding rl n s = some b ∧ ∀ r, r < n → Reachable b r := by
  obtain ⟨b, hgen, hwf, hchain⟩ := generateBuilding_spec rl hn hs
  exact ⟨b, hgen, reachable_of_chain hwf.2.2.2.2 hchain⟩

/-- Witness for `generateBuilding_all_rooms_reachable` at `(3, 12345)`,
random-label variant. -/
theorem generateBuilding_all_rooms_reachable_witness :
    ∃ b, generateBuilding true 3 12345 = some b ∧ ∀ r, r < 3 → Reachable b r :=
  generateBuilding_all_rooms_reachable true 3 12345 (by decide) (by decide)

/-! ### Claim C9: the spanning phase chains the rooms in index order -/

/-- Claim C9, counterexample: the claim quantifies over every seed, but with
seed `-1` the builder crashes after the spanning phase (modelled as `none`),
so there is no built maze containing the chain links at that seed. -/
theorem generateBuilding_chain_neg_seed_counterexample :
    generateBuilding false 2 (-1) = none := by
  decide

/-- Claim C9 (amended to nonnegative seeds): for every `room_count ≥ 2` and
every seed `≥ 0`, the spanning-tree phase (which draws no randomness) links
room `k` to room `k + 1` for every `k ≤ room_count - 2`, and these links
survive to the final maze with the very same doors for every seed: room 0's
door 0 points to room 1's door 0, and room `k`'s door 1 (for `1 ≤ k`)
points to room `k + 1`'s door 0. -/
theorem generateBuilding_spanning_chain (rl : Bool) (n : Nat) (s : Int)
    (hn : 2 ≤ n) (hs : 0 ≤ s) :
    ∃ b, generateBuilding rl n s = some b ∧
      doorOf b.rooms 0 0 = ⟨1, 0⟩ ∧
      ∀ k, 1 ≤ k → k + 1 < n → doorOf b.rooms k 1 = ⟨((k + 1 : Nat) : Int), 0⟩ := by
  obtain ⟨b, hgen, hwf, hchain⟩ := @generateBuilding_spec rl n (by omega) s hs
  refine ⟨b, hgen, ?_, ?_⟩
  · have hcd : chainDoors (n - 1) 0 0 = ⟨1, 0⟩ := chainDoors_zero0 (by omega)
    rw [hchain 0 0 (by rw [hcd, mk_toRoom]; omega), hcd]
  · intro k h1 h2
    have hcd : chainDoors (n - 1) k 1 = ⟨((k + 1 : Nat) : Int), 0⟩ :=
      chainDoors_fwd h1 (by omega)
    rw [hchain k 1 (by rw [hcd, mk_toRoom]; omega), hcd]

/-- Witness for `generateBuilding_spanning_chain` at `(3, 12345)`. -/
theorem generateBuilding_spanning_chain_witness :
    ∃ b, generateBuilding false 3 12345 = some b ∧
      doorOf b.rooms 0 0 = ⟨1, 0⟩ ∧
      ∀ k, 1 ≤ k → k + 1 < 3 → doorOf b.rooms k 1 = ⟨((k + 1 : Nat) : Int), 0⟩ :=
  generateBuilding_spanning_chain false 3 12345 (by decide) (by decide)

/-! ### Claim C6: door links are symmetric -/

/-- Claim C6: door links in any maze returned by `generateBuilding` are
symmetric: if room `r`'s door `d` is assigned the target `(r', d')`, then
room `r'`'s door `d'` is assigned `(r, d)` — so following a door and then
the door it points back to returns to the original room and door. -/
theorem generateBuilding_doors_symmetric (rl : Bool) (n : Nat) (s : Int) (b : Building)
    (hgen : generateBuilding rl n s = some b) :
    ∀ r d, r < n → d < 6 → (doorOf b.rooms r d).toRoom ≠ -1 →
      doorOf b.rooms (doorOf b.rooms r d).toRoom.toNat
        (doorOf b.rooms r d).toDoor.toNat = ⟨(r : Int), (d : Int)⟩ := by
  obtain ⟨hshape, hvalid, hsym, hstart⟩ := generateBuilding_cond hgen
  intro r d hr hd hne
  exact hsym r hr d hd hne

/-- Witness for `generateBuilding_doors_symmetric` on the concrete maze
`generateBuilding(2, 5)` at room 0, door 0. -/
theorem generateBuilding_doors_symmetric_witness :
    doorOf sampleBuilding2.rooms (doorOf sampleBuilding2.rooms 0 0).toRoom.toNat
      (doorOf sampleBuilding2.rooms 0 0).toDoor.toNat = ⟨(0 : Int), (0 : Int)⟩ :=
  generateBuilding_doors_symmetric false 2 5 sampleBuilding2 (by decide) 0 0
    (by decide) (by decide) (by decide)

/-! ### Claim C1: the walk simulator is not total -/

/-- Claim C1, refuted (code bug): the Walk Simulator is not total.
`parseInt` of a non-digit character yields `NaN`, the two range checks
`door < 0` and `door > 5` are both false on `NaN`, so the character is not
skipped and the simulator reads `doors[NaN].toRoom`, which throws a
`TypeError` (modelled as `none`).  On the maze `generateBuilding(1, 7)` the
plan `"a"` has no digit 0-5 — the claim promises a returned sequence of
length 1 — yet `simulateExploration` fails.  Digits 6-9 and the empty plan
are handled as the claim says. -/
theorem simulateExploration_crash_on_letter :
    generateBuilding false 1 7 = some sampleBuilding1 ∧
    digits05Count "a" = 0 ∧
    simulateExploration sampleBuilding1 "a" = none ∧
    simulateExploration sampleBuilding1 "9" = some [0] ∧
    simulateExploration sampleBuilding1 "" = some [0] := by
  refine ⟨by decide, by decide, by decide, by decide, by decide⟩

/-! ### Claim C7: the relay's plan filter -/

/-- Claim C7: the relay filters the incoming plan list by dropping entries
that are not strings, are empty or whitespace-only after trimming, or whose
trimmed remainder contains a character outside the digits 0-5, keeping the
trimmed remainder of the rest (`validPlansSpec` states this filter in the
claim's words); the input `["0325", "  ", "99"]` filters to `["0325"]`; and
when the filtered list is empty the relay fails immediately with the
validation error, issuing no network request. -/
theorem relay_filters_plans (api : RemoteApi) (pn : String) (plans : List JsValue) :
    validPlans plans = validPlansSpec plans ∧
    validPlans [JsValue.str "0325", JsValue.str "  ", JsValue.str "99"] = ["0325"] ∧
    (validPlans plans = [] →
      exploreAedificium api plans pn =
        (Except.error "Invalid request: at least one valid plan is required (digits 0-5 only)",
          [])) := by
  refine ⟨?_, by decide, ?_⟩
  · induction plans with
    | nil => rfl
    | cons p ps ih =>
      cases p with
      | other =>
        simpa [validPlans, validPlansSpec, planFilter, List.filter_cons,
          List.filterMap_cons] using ih
      | str s =>
        by_cases h1 : (jsTrim s).isEmpty <;>
          by_cases h2 : (jsTrim s).toList.all isDigit05 <;>
            simp_all [validPlans, validPlansSpec, planFilter, testPlanRegex, trimPlan,
              List.filter_cons, List.filterMap_cons]
  · intro h
    simp [exploreAedificium, h]

/-- Witness for `relay_filters_plans`: the plan `"  9"` trims to `"9"`, which
contains a digit outside 0-5, so the filtered list is empty and the relay
fails with the validation error and an empty call list. -/
theorem relay_filters_plans_witness :
    validPlans [JsValue.str "  9"] = [] ∧
    exploreAedificium sampleApiOk [JsValue.str "  9"] "probatio" =
      (Except.error "Invalid request: at least one valid plan is required (digits 0-5 only)",
        []) :=
  ⟨by decide, (relay_filters_plans sampleApiOk "probatio" [JsValue.str "  9"]).2.2 (by decide)⟩

/-! ### Claim C8: selection strictly precedes exploration -/

/-- Claim C8: the exploration request is issued only after the selection
request completed with a success (2xx) status; if selection fails — a non-2xx
status or a thrown network error — the relay returns a single descriptive
`Failed to explore aedificium: …` error naming the failed step, the call list
is `[select]` alone (no exploration request), and no result payload is
returned. -/
theorem relay_select_before_explore (api : RemoteApi) (plans : List JsValue) (pn : String) :
    (ApiCall.explore ∈ (exploreAedificium api plans pn).2 →
      ∃ status statusText, api.selectOutcome = HttpOutcome.response status statusText ∧
        statusOk status = true) ∧
    (∀ msg, api.selectOutcome = HttpOutcome.netError msg → validPlans plans ≠ [] →
      exploreAedificium api plans pn =
        (Except.error ("Failed to explore aedificium: " ++ msg), [ApiCall.select])) ∧
    (∀ status statusText, api.selectOutcome = HttpOutcome.response status statusText →
      statusOk status = false → validPlans plans ≠ [] →
      exploreAedificium api plans pn =
        (Except.error ("Failed to explore aedificium: Problem selection failed: " ++
          toString status ++ " " ++ statusText), [ApiCall.select])) := by
  refine ⟨?_, ?_, ?_⟩
  · intro hmem
    unfold exploreAedificium at hmem
    by_cases hv : (validPlans plans).length = 0
    · rw [if_pos hv] at hmem
      simp at hmem
    · rw [if_neg hv] at hmem
      cases hsel : api.selectOutcome with
      | netError msg =>
        rw [hsel] at hmem
        simp at hmem
      | response st stx =>
        rw [hsel] at hmem
        by_cases hok : statusOk st = true
        · exact ⟨st, stx, rfl, hok⟩
        · have hok' : statusOk st = false := by
            cases h : statusOk st
            · rfl
            · exact absurd h hok
          simp [hok'] at hmem
  · intro msg hsel hne
    have hv : ¬(validPlans plans).length = 0 := by
      intro h
      exact hne (List.length_eq_zero.mp h)
    unfold exploreAedificium
    rw [if_neg hv, hsel]
  · intro st stx hsel hok hne
    have hv : ¬(validPlans plans).length = 0 := by
      intro h
      exact hne (List.length_eq_zero.mp h)
    unfold exploreAedificium
    rw [if_neg hv, hsel]
    simp [hok]

/-- Witness for `relay_select_before_explore`: a 500 on `/select` yields the
selection-failure error and a call list holding only the select request. -/
theorem relay_select_before_explore_witness :
    exploreAedificium sampleApiSelectFail [JsValue.str "0325"] "probatio" =
      (Except.error ("Failed to explore aedificium: Problem selection failed: " ++
        toString (500 : Nat) ++ " " ++ "Server Error"), [ApiCall.select]) :=
  (relay_select_before_explore sampleApiSelectFail [JsValue.str "0325"] "probatio").2.2
    500 "Server Error" rfl (by decide) (by decide)

/-! ### Claim C10: fields of the stepwise simulator's output -/

theorem charNat_ge48 {c : Char} (h : '0' ≤ c) : 48 ≤ c.toNat := by
  rw [Char.le_def, UInt32.le_def, BitVec.le_def] at h
  have h0 : ('0'.val.toBitVec.toNat) = 48 := rfl
  rw [h0] at h
  show 48 ≤ c.val.toBitVec.toNat
  omega

theorem charNat_le53 {c : Char} (h : c ≤ '5') : c.toNat ≤ 53 := by
  rw [Char.le_def, UInt32.le_def, BitVec.le_def] at h
  have h5 : ('5'.val.toBitVec.toNat) = 53 := rfl
  rw [h5] at h
  show c.val.toBitVec.toNat ≤ 53
  omega

theorem charNat_ge54 {c : Char} (h : ¬(c ≤ '5')) : 54 ≤ c.toNat := by
  rw [Char.le_def, UInt32.le_def, BitVec.le_def] at h
  have h5 : ('5'.val.toBitVec.toNat) = 53 := rfl
  rw [h5] at h
  show 54 ≤ c.val.toBitVec.toNat
  omega

theorem isDigit05_iff {c : Char} : isDigit05 c = true ↔ ('0' ≤ c ∧ c ≤ '5') := by
  simp [isDigit05]

theorem jsParseDigit_eq {c : Char} (h : '0' ≤ c ∧ c ≤ '9') :
    jsParseDigit c = some ((c.toNat - 48 : Nat) : Int) := by
  unfold jsParseDigit
  rw [if_pos h]
  rfl

theorem jsLtNaN_false {v b : Int} (h : ¬(v < b)) : jsLtNaN (some v) b = false := by
  simp [jsLtNaN, h]

theorem jsGtNaN_false {v b : Int} (h : ¬(b < v)) : jsGtNaN (some v) b = false := by
  simp [jsGtNaN, h]

theorem jsGtNaN_true {v b : Int} (h : b < v) : jsGtNaN (some v) b = true := by
  simp [jsGtNaN, h]

theorem getDoorNaN?_eq {n : Nat} {rooms : List Room} (hs : RoomsShape n rooms) {r d : Int}
    (hr0 : 0 ≤ r) (hrn : r < (n : Int)) (hd0 : 0 ≤ d) (hd6 : d < 6) :
    getDoorNaN? rooms r (some d) = some (doorOf rooms r.toNat d.toNat) := by
  unfold getDoorNaN?
  rw [getRoom?_eq hs hr0 hrn]
  simp only [Option.bind_eq_bind', Option.some_bind]
  have hdl : (rooms.getD r.toNat default).doors.length = 6 :=
    (hs.2 r.toNat (by omega)).2
  show (idx? (rooms.getD r.toNat default).doors.length d).bind _ = _
  unfold idx?
  rw [if_pos ⟨hd0, by rw [hdl]; omega⟩]
  show (rooms.getD r.toNat default).doors.get? d.toNat = _
  exact list_get?_getD (rooms.getD r.toNat default).doors d.toNat
    (⟨-1, -1⟩ : DoorConnection) (by omega)

/-- Per-character behaviour of the stepwise simulator on plans of characters
0-9 over a structurally valid room list: it never fails, appends one step of
`stepIndex i + 1` per digit 0-5 at position `i`, skips digits 6-9, and stamps
every step with the fixed `totalSteps`. -/
theorem simStepsLoop_spec {n : Nat} {rooms : List Room} (hs : RoomsShape n rooms)
    (hv : ValidDoors n rooms) :
    ∀ (cs : List Char) (i : Nat) (cur : Int) (total : Nat), 0 ≤ cur → cur < (n : Int) →
    (∀ c ∈ cs, '0' ≤ c ∧ c ≤ '9') →
    ∃ steps, simStepsLoop rooms total cs i cur = some steps ∧
      steps.map ExplorationStep.stepIndex = stepIdxs cs i ∧
      steps.length = (cs.filter isDigit05).length ∧
      ∀ st ∈ steps, st.totalSteps = total := by
  intro cs
  induction cs with
  | nil =>
    intro i cur total h0 h1 hc
    exact ⟨[], rfl, rfl, rfl, fun st h => absurd h (List.not_mem_nil st)⟩
  | cons c cs ih =>
    intro i cur total h0 h1 hc
    have hc0 := hc c (List.mem_cons_self c cs)
    have hcs : ∀ x ∈ cs, '0' ≤ x ∧ x ≤ '9' := fun x hx => hc x (List.mem_cons_of_mem c hx)
    by_cases hd : isDigit05 c = true
    · obtain ⟨hle0, hle5⟩ := isDigit05_iff.mp hd
      have hvlo : 48 ≤ c.toNat := charNat_ge48 hle0
      have hvhi : c.toNat ≤ 53 := charNat_le53 hle5
      have hv0 : (0 : Int) ≤ ((c.toNat - 48 : Nat) : Int) := by positivity
      have hv6 : ((c.toNat - 48 : Nat) : Int) < 6 := by omega
      have hdoor : getDoorNaN? rooms cur (some ((c.toNat - 48 : Nat) : Int)) =
          some (doorOf rooms cur.toNat (c.toNat - 48)) := by
        have h := getDoorNaN?_eq hs h0 h1 hv0 hv6
        rwa [Int.toNat_natCast] at h
      have hcurn : cur.toNat < n := by omega
      have hdn : c.toNat - 48 < 6 := by omega
      have hcur2 : ∃ cur2 : Int,
          (if ((doorOf rooms cur.toNat (c.toNat - 48)).toRoom != -1) = true
            then (doorOf rooms cur.toNat (c.toNat - 48)).toRoom else cur)
            = cur2 ∧ 0 ≤ cur2 ∧ cur2 < (n : Int) := by
        by_cases hne : (doorOf rooms cur.toNat (c.toNat - 48)).toRoom = -1
        · refine ⟨cur, ?_, h0, h1⟩
          rw [if_neg]
          simp [hne]
        · have hb := hv cur.toNat hcurn (c.toNat - 48) hdn hne
          exact ⟨_, if_pos (by simp [bne_iff_ne, hne]), hb.1, hb.2.1⟩
      obtain ⟨cur2, hc2eq, hc20, hc2n⟩ := hcur2
      obtain ⟨rest, hrest, hmap, hlen, htot⟩ := ih (i + 1) cur2 total hc20 hc2n hcs
      refine ⟨⟨⟨cur2, (rooms.getD cur2.toNat default).label, none⟩,
        some ⟨cur, (rooms.getD cur.toNat default).label, some ((c.toNat - 48 : Nat) : Int)⟩,
        i + 1, total⟩ :: rest, ?_, ?_, ?_, ?_⟩
      · simp only [simStepsLoop]
        rw [jsParseDigit_eq ⟨hle0, le_trans hle5 (by decide)⟩]
        rw [if_neg (by
          rw [jsLtNaN_false (by omega), jsGtNaN_false (by omega)]
          exact Bool.false_ne_true)]
        rw [getRoom?_eq hs h0 h1]
        simp only [Option.bind_eq_bind', Option.some_bind]
        rw [hdoor]
        simp only [Option.some_bind]
        rw [hc2eq]
        rw [getRoom?_eq hs hc20 hc2n]
        simp only [Option.some_bind]
        rw [hrest]
        simp only [Option.some_bind, Option.pure_def]
      · show (i + 1) :: rest.map ExplorationStep.stepIndex = stepIdxs (c :: cs) i
        simp only [stepIdxs]
        rw [if_pos hd, hmap]
      · show rest.length + 1 = ((c :: cs).filter isDigit05).length
        rw [List.filter_cons_of_pos hd]
        simp [hlen]
      · intro st hmem
        rcases List.mem_cons.mp hmem with h | h
        · rw [h]
        · exact htot st h
    · have hdF : isDigit05 c = false := by
        cases h : isDigit05 c
        · rfl
        · exact absurd h hd
      have h5 : ¬(c ≤ '5') := fun h5 => hd (isDigit05_iff.mpr ⟨hc0.1, h5⟩)
      have h54 : 54 ≤ c.toNat := charNat_ge54 h5
      obtain ⟨rest, hrest, hmap, hlen, htot⟩ := ih (i + 1) cur total h0 h1 hcs
      refine ⟨rest, ?_, ?_, ?_, htot⟩
      · simp only [simStepsLoop]
        rw [jsParseDigit_eq hc0]
        rw [if_pos (by
          rw [jsGtNaN_true (by omega)]
          exact Bool.or_true _)]
        exact hrest
      · rw [hmap]
        simp only [stepIdxs]
        rw [if_neg (by rw [hdF]; exact Bool.false_ne_true)]
      · rw [hlen, List.filter_cons_of_neg (by rw [hdF]; exact Bool.false_ne_true)]

/-- Claim C10, counterexample: the claim's final conjunct says the recorded
`stepIndex` values are non-contiguous whenever the plan contains a digit 6-9;
but on the plan `"09"` (one digit 0-5, one digit 6-9) the skipped character
is the last one, so the recorded indexes are `[0, 1]` — contiguous. -/
theorem simulateExplorationSteps_contig_counterexample :
    generateBuilding false 1 7 = some sampleBuilding1 ∧
    digits05Count "09" = 1 ∧ "09".length = 2 ∧
    Option.map (fun steps => steps.map ExplorationStep.stepIndex)
      (simulateExplorationSteps sampleBuilding1 "09") = some [0, 1] := by
  refine ⟨by decide, by decide, by decide, by decide⟩

/-- Claim C10 (amended: the non-contiguity conjunct dropped — the recorded
indexes can be contiguous when every skipped character sits at the end of the
plan): on any built maze with at least one room, for every plan of characters
0-9, `simulateExplorationSteps` succeeds; every step carries
`totalSteps = plan.length + 1`; the step appended for the plan character at
position `i` carries `stepIndex = i + 1` regardless of skipped characters
(the index list is `0 :: stepIdxs plan 0`); the list has length
`1 + (number of characters 0-5)`, which is strictly smaller than `totalSteps`
whenever the plan contains a digit 6-9. -/
theorem simulateExplorationSteps_fields (rl : Bool) (n : Nat) (s : Int) (b : Building)
    (hn : 1 ≤ n) (hgen : generateBuilding rl n s = some b) (plan : String)
    (hplan : ∀ c ∈ plan.toList, '0' ≤ c ∧ c ≤ '9') :
    ∃ steps, simulateExplorationSteps b plan = some steps ∧
      steps.length = 1 + digits05Count plan ∧
      (∀ st ∈ steps, st.totalSteps = plan.length + 1) ∧
      steps.map ExplorationStep.stepIndex = 0 :: stepIdxs plan.toList 0 ∧
      (digits05Count plan < plan.length → steps.length < plan.length + 1) := by
  obtain ⟨hshape, hvalid, hsym, hstart⟩ := generateBuilding_cond hgen
  have h0n : (0 : Int) < (n : Int) := by exact_mod_cast hn
  obtain ⟨rest, hrest, hmap, hlen, htot⟩ :=
    simStepsLoop_spec hshape hvalid plan.toList 0 ((b.startingRoom : Nat) : Int)
      (plan.length + 1) (by omega) (by rw [hstart]; omega) hplan
  refine ⟨⟨⟨((b.startingRoom : Nat) : Int),
      (b.rooms.getD ((b.startingRoom : Nat) : Int).toNat default).label, none⟩,
      none, 0, plan.length + 1⟩ :: rest, ?_, ?_, ?_, ?_, ?_⟩
  · unfold simulateExplorationSteps
    rw [getRoom?_eq hshape (by omega) (by rw [hstart]; omega)]
    simp only [Option.bind_eq_bind', Option.some_bind]
    rw [hrest]
    simp only [Option.some_bind, Option.pure_def]
  · show rest.length + 1 = 1 + digits05Count plan
    rw [hlen]
    show (List.filter isDigit05 plan.toList).length + 1 = 1 + (plan.toList.filter isDigit05).length
    omega
  · intro st hmem
    rcases List.mem_cons.mp hmem with h | h
    · rw [h]
    · exact htot st h
  · show 0 :: rest.map ExplorationStep.stepIndex = 0 :: stepIdxs plan.toList 0
    rw [hmap]
  · intro hlt
    show rest.length + 1 < plan.length + 1
    rw [hlen]
    have : (plan.toList.filter isDigit05).length < plan.length := hlt
    omega

/-- Witness for `simulateExplorationSteps_fields` on `generateBuilding(1, 7)`
with the plan `"09"`. -/
theorem simulateExplorationSteps_fields_witness :
    ∃ steps, simulateExplorationSteps sampleBuilding1 "09" = some steps ∧
      steps.length = 1 + digits05Count "09" ∧
      (∀ st ∈ steps, st.totalSteps = "09".length + 1) ∧
      steps.map ExplorationStep.stepIndex = 0 :: stepIdxs "09".toList 0 ∧
      (digits05Count "09" < "09".length → steps.length < "09".length + 1) :=
  simulateExplorationSteps_fields false 1 7 sampleBuilding1 (by decide) (by decide)
    "09" (by decide)

/-! ### Claim C4: entries of the visualization's connections list -/

theorem connScan_acc (keyFn : Int → Int → Int → Int → ConnKey) :
    ∀ (ps : List (Room × Nat)) (seen : List ConnKey) (acc : List Conn),
    connScan keyFn ps seen acc = acc ++ connScan keyFn ps seen [] := by
  intro ps
  induction ps with
  | nil =>
    intro seen acc
    simp [connScan]
  | cons p ps ih =>
    intro seen acc
    obtain ⟨room, d⟩ := p
    cases hget : room.doors.get? d with
    | none => simp only [connScan, hget]; exact ih seen acc
    | some conn =>
      simp only [connScan, hget]
      by_cases hne : conn.toRoom ≠ -1
      · rw [if_pos hne, if_pos hne]
        by_cases hcond : (room.id : Int) = conn.toRoom ∨
            keyFn room.id d conn.toRoom conn.toDoor ∉ seen
        · rw [if_pos hcond, if_pos hcond]
          generalize (if (room.id : Int) ≠ conn.toRoom then
            seen ++ [keyFn room.id d conn.toRoom conn.toDoor] else seen) = S
          generalize (⟨⟨room.id, d⟩, ⟨conn.toRoom, conn.toDoor⟩⟩ : Conn) = e
          rw [ih S (acc ++ [e]), ih S ([] ++ [e])]
          simp
        · rw [if_neg hcond, if_neg hcond]
          exact ih seen acc
      · rw [if_neg hne, if_neg hne]
        exact ih seen acc

theorem countConn_append (e : Conn) (xs ys : List Conn) :
    countConn e (xs ++ ys) = countConn e xs + countConn e ys := by
  induction xs with
  | nil => simp [countConn]
  | cons x xs ih =>
    show (if x = e then 1 else 0) + countConn e (xs ++ ys) =
      ((if x = e then 1 else 0) + countConn e xs) + countConn e ys
    rw [ih]
    omega

theorem connScan_cons_none (keyFn : Int → Int → Int → Int → ConnKey)
    {room : Room} {d : Nat} (ps : List (Room × Nat)) (seen : List ConnKey)
    (hget : room.doors.get? d = none) :
    connScan keyFn ((room, d) :: ps) seen [] = connScan keyFn ps seen [] := by
  simp only [connScan, hget]

theorem connScan_cons_unassigned (keyFn : Int → Int → Int → Int → ConnKey)
    {room : Room} {d : Nat} {tr td : Int} (ps : List (Room × Nat)) (seen : List ConnKey)
    (hget : room.doors.get? d = some ⟨tr, td⟩) (h : tr = -1) :
    connScan keyFn ((room, d) :: ps) seen [] = connScan keyFn ps seen [] := by
  simp only [connScan, hget]
  rw [if_neg (by simp [h])]

theorem connScan_cons_self (keyFn : Int → Int → Int → Int → ConnKey)
    {room : Room} {d : Nat} {tr td : Int} (ps : List (Room × Nat)) (seen : List ConnKey)
    (hget : room.doors.get? d = some ⟨tr, td⟩) (hne : tr ≠ -1)
    (hself : (room.id : Int) = tr) :
    connScan keyFn ((room, d) :: ps) seen [] =
      ⟨⟨room.id, d⟩, ⟨tr, td⟩⟩ :: connScan keyFn ps seen [] := by
  simp only [connScan, hget]
  rw [if_pos hne, if_pos (Or.inl hself), if_neg (by simp [hself]), connScan_acc]
  simp

theorem connScan_cons_new (keyFn : Int → Int → Int → Int → ConnKey)
    {room : Room} {d : Nat} {tr td : Int} (ps : List (Room × Nat)) (seen : List ConnKey)
    (hget : room.doors.get? d = some ⟨tr, td⟩) (hne : tr ≠ -1)
    (hnself : (room.id : Int) ≠ tr)
    (hnotin : keyFn room.id d tr td ∉ seen) :
    connScan keyFn ((room, d) :: ps) seen [] =
      ⟨⟨room.id, d⟩, ⟨tr, td⟩⟩ ::
        connScan keyFn ps (seen ++ [keyFn room.id d tr td]) [] := by
  simp only [connScan, hget]
  rw [if_pos hne, if_pos (Or.inr hnotin), if_pos hnself, connScan_acc]
  simp

theorem connScan_cons_skip (keyFn : Int → Int → Int → Int → ConnKey)
    {room : Room} {d : Nat} {tr td : Int} (ps : List (Room × Nat)) (seen : List ConnKey)
    (hget : room.doors.get? d = some ⟨tr, td⟩) (hne : tr ≠ -1)
    (hnself : (room.id : Int) ≠ tr)
    (hin : keyFn room.id d tr td ∈ seen) :
    connScan keyFn ((room, d) :: ps) seen [] = connScan keyFn ps seen [] := by
  simp only [connScan, hget]
  rw [if_pos hne, if_neg]
  intro hcond
  rcases hcond with h | h
  · exact hnself h
  · exact h hin

theorem conn_entry_ne {room : Room} {d : Nat} {tr td : Int} {a b : Nat} {t : ConnEnd}
    (h : ¬(room.id = a ∧ d = b)) :
    (⟨⟨(room.id : Int), (d : Int)⟩, ⟨tr, td⟩⟩ : Conn) ≠ ⟨⟨(a : Int), (b : Int)⟩, t⟩ := by
  intro heq
  injection heq with h1 h2
  injection h1 with h3 h4
  exact h ⟨by exact_mod_cast h3, by exact_mod_cast h4⟩

theorem connectionKey001_pair {A B T TD : Int} {r d r' d' : Nat}
    (h : connectionKey001 A B T TD =
      ConnKey.pairKey (r : Int) (d : Int) (r' : Int) (d' : Int)) :
    (A = (r : Int) ∧ B = (d : Int)) ∨ (A = (r' : Int) ∧ B = (d' : Int)) := by
  unfold connectionKey001 at h
  by_cases h1 : A = T
  · rw [if_pos h1] at h
    exact absurd h (by simp)
  · rw [if_neg h1] at h
    by_cases h2 : A < T
    · rw [if_pos h2] at h
      injection h with ha hb hc hd2
      exact Or.inl ⟨ha, hb⟩
    · rw [if_neg h2] at h
      injection h with ha hb hc hd2
      exact Or.inr ⟨hc, hd2⟩

theorem connScan_count_nofrom (keyFn : Int → Int → Int → Int → ConnKey)
    (a b : Nat) (t : ConnEnd) :
    ∀ (ps : List (Room × Nat)) (seen : List ConnKey),
    (∀ p ∈ ps, ¬(p.1.id = a ∧ p.2 = b)) →
    countConn ⟨⟨(a : Int), (b : Int)⟩, t⟩ (connScan keyFn ps seen []) = 0 := by
  intro ps
  induction ps with
  | nil =>
    intro seen hno
    simp [connScan, countConn]
  | cons p ps ih =>
    intro seen hno
    obtain ⟨room, d⟩ := p
    have hp := hno (room, d) (List.mem_cons_self _ _)
    have hrest : ∀ q ∈ ps, ¬(q.1.id = a ∧ q.2 = b) :=
      fun q hq => hno q (List.mem_cons_of_mem _ hq)
    cases hget : room.doors.get? d with
    | none =>
      rw [connScan_cons_none keyFn ps seen hget]
      exact ih seen hrest
    | some conn =>
      obtain ⟨tr, td⟩ := conn
      by_cases htr : tr = -1
      · rw [connScan_cons_unassigned keyFn ps seen hget htr]
        exact ih seen hrest
      · by_cases hself : (room.id : Int) = tr
        · rw [connScan_cons_self keyFn ps seen hget htr hself]
          simp only [countConn]
          rw [if_neg (conn_entry_ne hp), ih seen hrest]
        · by_cases hin : keyFn room.id d tr td ∈ seen
          · rw [connScan_cons_skip keyFn ps seen hget htr hself hin]
            exact ih seen hrest
          · rw [connScan_cons_new keyFn ps seen hget htr hself hin]
            simp only [countConn]
            rw [if_neg (conn_entry_ne hp), ih _ hrest]

theorem connScan001_second {n : Nat} {rooms : List Room} (hs : RoomsShape n rooms)
    {r d r' d' : Nat} (hlt : r < r') (hr' : r' < n) (hd6 : d < 6) (hd'6 : d' < 6)
    (hD' : doorOf rooms r' d' = ⟨(r : Int), (d : Int)⟩) :
    ∀ (mid post : List (Room × Nat)) (seen : List ConnKey),
    ConnKey.pairKey (r : Int) (d : Int) (r' : Int) (d' : Int) ∈ seen →
    (∀ p ∈ mid, ¬(p.1.id = r ∧ p.2 = d) ∧ ¬(p.1.id = r' ∧ p.2 = d')) →
    (∀ p ∈ post, ¬(p.1.id = r ∧ p.2 = d) ∧ ¬(p.1.id = r' ∧ p.2 = d')) →
    countConn ⟨⟨(r : Int), (d : Int)⟩, ⟨(r' : Int), (d' : Int)⟩⟩
      (connScan connectionKey001 (mid ++ (rooms.getD r' default, d') :: post) seen []) = 0 ∧
    countConn ⟨⟨(r' : Int), (d' : Int)⟩, ⟨(r : Int), (d : Int)⟩⟩
      (connScan connectionKey001 (mid ++ (rooms.getD r' default, d') :: post) seen []) = 0 := by
  intro mid
  induction mid with
  | nil =>
    intro post seen hkey hmid hpost
    rw [List.nil_append]
    have hid : (rooms.getD r' default).id = r' := (hs.2 r' hr').1
    have hget : (rooms.getD r' default).doors.get? d' = some (doorOf rooms r' d') :=
      list_get?_getD _ d' (⟨-1, -1⟩ : DoorConnection) (by rw [(hs.2 r' hr').2]; omega)
    rw [hD'] at hget
    have hkeyeq : connectionKey001 (r' : Int) (d' : Int) (r : Int) (d : Int) =
        ConnKey.pairKey (r : Int) (d : Int) (r' : Int) (d' : Int) := by
      unfold connectionKey001
      rw [if_neg (by omega), if_neg (by omega)]
    rw [connScan_cons_skip connectionKey001 post seen hget (by omega)
      (by rw [hid]; omega) (by rw [hid, hkeyeq]; exact hkey)]
    exact ⟨connScan_count_nofrom connectionKey001 r d _ post seen
        (fun q hq => (hpost q hq).1),
      connScan_count_nofrom connectionKey001 r' d' _ post seen
        (fun q hq => (hpost q hq).2)⟩
  | cons p mid ihm =>
    intro post seen hkey hmid hpost
    obtain ⟨room, dd⟩ := p
    have hp := hmid (room, dd) (List.mem_cons_self _ _)
    have hmid2 : ∀ q ∈ mid, ¬(q.1.id = r ∧ q.2 = d) ∧ ¬(q.1.id = r' ∧ q.2 = d') :=
      fun q hq => hmid q (List.mem_cons_of_mem _ hq)
    rw [List.cons_append]
    cases hget : room.doors.get? dd with
    | none =>
      rw [connScan_cons_none _ _ _ hget]
      exact ihm post seen hkey hmid2 hpost
    | some conn =>
      obtain ⟨tr, td⟩ := conn
      by_cases htr : tr = -1
      · rw [connScan_cons_unassigned _ _ _ hget htr]
        exact ihm post seen hkey hmid2 hpost
      · by_cases hself : (room.id : Int) = tr
        · rw [connScan_cons_self _ _ _ hget htr hself]
          have hih := ihm post seen hkey hmid2 hpost
          constructor
          · simp only [countConn]
            rw [if_neg (conn_entry_ne hp.1), hih.1]
          · simp only [countConn]
            rw [if_neg (conn_entry_ne hp.2), hih.2]
        · by_cases hin : connectionKey001 room.id dd tr td ∈ seen
          · rw [connScan_cons_skip _ _ _ hget htr hself hin]
            exact ihm post seen hkey hmid2 hpost
          · rw [connScan_cons_new _ _ _ hget htr hself hin]
            have hih := ihm post (seen ++ [connectionKey001 room.id dd tr td])
              (List.mem_append_left _ hkey) hmid2 hpost
            constructor
            · simp only [countConn]
              rw [if_neg (conn_entry_ne hp.1), hih.1]
            · simp only [countConn]
              rw [if_neg (conn_entry_ne hp.2), hih.2]

theorem connScan001_pair {n : Nat} {rooms : List Room} (hs : RoomsShape n rooms)
    {r d r' d' : Nat} (hlt : r < r') (hr : r < n) (hr' : r' < n) (hd6 : d < 6) (hd'6 : d' < 6)
    (hD : doorOf rooms r d = ⟨(r' : Int), (d' : Int)⟩)
    (hD' : doorOf rooms r' d' = ⟨(r : Int), (d : Int)⟩) :
    ∀ (pre mid post : List (Room × Nat)) (seen : List ConnKey),
    ConnKey.pairKey (r : Int) (d : Int) (r' : Int) (d' : Int) ∉ seen →
    (∀ p ∈ pre, ¬(p.1.id = r ∧ p.2 = d) ∧ ¬(p.1.id = r' ∧ p.2 = d')) →
    (∀ p ∈ mid, ¬(p.1.id = r ∧ p.2 = d) ∧ ¬(p.1.id = r' ∧ p.2 = d')) →
    (∀ p ∈ post, ¬(p.1.id = r ∧ p.2 = d) ∧ ¬(p.1.id = r' ∧ p.2 = d')) →
    countConn ⟨⟨(r : Int), (d : Int)⟩, ⟨(r' : Int), (d' : Int)⟩⟩
      (connScan connectionKey001
        (pre ++ ((rooms.getD r default, d) :: (mid ++ (rooms.getD r' default, d') :: post)))
        seen []) = 1 ∧
    countConn ⟨⟨(r' : Int), (d' : Int)⟩, ⟨(r : Int), (d : Int)⟩⟩
      (connScan connectionKey001
        (pre ++ ((rooms.getD r default, d) :: (mid ++ (rooms.getD r' default, d') :: post)))
        seen []) = 0 := by
  intro pre
  induction pre with
  | nil =>
    intro mid post seen hkey hpre hmid hpost
    rw [List.nil_append]
    have hid : (rooms.getD r default).id = r := (hs.2 r hr).1
    have hget : (rooms.getD r default).doors.get? d = some (doorOf rooms r d) :=
      list_get?_getD _ d (⟨-1, -1⟩ : DoorConnection) (by rw [(hs.2 r hr).2]; omega)
    rw [hD] at hget
    have hkeyeq : connectionKey001 (r : Int) (d : Int) (r' : Int) (d' : Int) =
        ConnKey.pairKey (r : Int) (d : Int) (r' : Int) (d' : Int) := by
      unfold connectionKey001
      rw [if_neg (by omega), if_pos (by omega)]
    rw [connScan_cons_new connectionKey001 _ seen hget (by omega)
      (by rw [hid]; omega) (by rw [hid, hkeyeq]; exact hkey)]
    rw [hid, hkeyeq]
    have hsec := connScan001_second hs hlt hr' hd6 hd'6 hD' mid post
      (seen ++ [ConnKey.pairKey (r : Int) (d : Int) (r' : Int) (d' : Int)])
      (List.mem_append_right _ (List.mem_singleton.mpr rfl)) hmid hpost
    constructor
    · simp only [countConn]
      rw [hsec.1]
      simp
    · simp only [countConn]
      rw [if_neg (by
        intro h
        injection h with h1 h2
        injection h1 with h3 h4
        omega), hsec.2]
  | cons p pre ihp =>
    intro mid post seen hkey hpre hmid hpost
    obtain ⟨room, dd⟩ := p
    have hp := hpre (room, dd) (List.mem_cons_self _ _)
    have hpre2 : ∀ q ∈ pre, ¬(q.1.id = r ∧ q.2 = d) ∧ ¬(q.1.id = r' ∧ q.2 = d') :=
      fun q hq => hpre q (List.mem_cons_of_mem _ hq)
    rw [List.cons_append]
    cases hget : room.doors.get? dd with
    | none =>
      rw [connScan_cons_none _ _ _ hget]
      exact ihp mid post seen hkey hpre2 hmid hpost
    | some conn =>
      obtain ⟨tr, td⟩ := conn
      by_cases htr : tr = -1
      · rw [connScan_cons_unassigned _ _ _ hget htr]
        exact ihp mid post seen hkey hpre2 hmid hpost
      · by_cases hself : (room.id : Int) = tr
        · rw [connScan_cons_self _ _ _ hget htr hself]
          have hih := ihp mid post seen hkey hpre2 hmid hpost
          constructor
          · simp only [countConn]
            rw [if_neg (conn_entry_ne hp.1), hih.1]
          · simp only [countConn]
            rw [if_neg (conn_entry_ne hp.2), hih.2]
        · by_cases hin : connectionKey001 room.id dd tr td ∈ seen
          · rw [connScan_cons_skip _ _ _ hget htr hself hin]
            exact ihp mid post seen hkey hpre2 hmid hpost
          · rw [connScan_cons_new _ _ _ hget htr hself hin]
            have hkne : connectionKey001 (room.id : Int) (dd : Int) tr td ≠
                ConnKey.pairKey (r : Int) (d : Int) (r' : Int) (d' : Int) := by
              intro hkeq
              rcases connectionKey001_pair hkeq with ⟨h1, h2⟩ | ⟨h1, h2⟩
              · exact hp.1 ⟨by exact_mod_cast h1, by exact_mod_cast h2⟩
              · exact hp.2 ⟨by exact_mod_cast h1, by exact_mod_cast h2⟩
            have hkey2 : ConnKey.pairKey (r : Int) (d : Int) (r' : Int) (d' : Int) ∉
                seen ++ [connectionKey001 (room.id : Int) (dd : Int) tr td] := by
              intro hmem
              rcases List.mem_append.mp hmem with h | h
              · exact hkey h
              · rw [List.mem_singleton] at h
                exact hkne h.symm
            have hih := ihp mid post _ hkey2 hpre2 hmid hpost
            constructor
            · simp only [countConn]
              rw [if_neg (conn_entry_ne hp.1), hih.1]
            · simp only [countConn]
              rw [if_neg (conn_entry_ne hp.2), hih.2]

theorem connScan_count_selfloop (keyFn : Int → Int → Int → Int → ConnKey)
    {n : Nat} {rooms : List Room} (hs : RoomsShape n rooms)
    {r d : Nat} (hr : r < n) (hd6 : d < 6) {td : Int}
    (hD : doorOf rooms r d = ⟨(r : Int), td⟩) :
    ∀ (pre post : List (Room × Nat)) (seen : List ConnKey),
    (∀ p ∈ pre, ¬(p.1.id = r ∧ p.2 = d)) → (∀ p ∈ post, ¬(p.1.id = r ∧ p.2 = d)) →
    countConn ⟨⟨(r : Int), (d : Int)⟩, ⟨(r : Int), td⟩⟩
      (connScan keyFn (pre ++ (rooms.getD r default, d) :: post) seen []) = 1 := by
  intro pre
  induction pre with
  | nil =>
    intro post seen hpre hpost
    rw [List.nil_append]
    have hid : (rooms.getD r default).id = r := (hs.2 r hr).1
    have hget : (rooms.getD r default).doors.get? d = some (doorOf rooms r d) :=
      list_get?_getD _ d (⟨-1, -1⟩ : DoorConnection) (by rw [(hs.2 r hr).2]; omega)
    rw [hD] at hget
    rw [connScan_cons_self keyFn post seen hget (by omega) (by rw [hid]), hid]
    simp only [countConn]
    rw [connScan_count_nofrom keyFn r d _ post seen hpost]
    simp
  | cons p pre ihp =>
    intro post seen hpre hpost
    obtain ⟨room, dd⟩ := p
    have hp := hpre (room, dd) (List.mem_cons_self _ _)
    have hpre2 : ∀ q ∈ pre, ¬(q.1.id = r ∧ q.2 = d) :=
      fun q hq => hpre q (List.mem_cons_of_mem _ hq)
    rw [List.cons_append]
    cases hget : room.doors.get? dd with
    | none =>
      rw [connScan_cons_none _ _ _ hget]
      exact ihp post seen hpre2 hpost
    | some conn =>
      obtain ⟨tr, td2⟩ := conn
      by_cases htr : tr = -1
      · rw [connScan_cons_unassigned _ _ _ hget htr]
        exact ihp post seen hpre2 hpost
      · by_cases hself : (room.id : Int) = tr
        · rw [connScan_cons_self _ _ _ hget htr hself]
          simp only [countConn]
          rw [if_neg (conn_entry_ne hp), ihp post seen hpre2 hpost]
        · by_cases hin : keyFn room.id dd tr td2 ∈ seen
          · rw [connScan_cons_skip _ _ _ hget htr hself hin]
            exact ihp post seen hpre2 hpost
          · rw [connScan_cons_new _ _ _ hget htr hself hin]
            simp only [countConn]
            rw [if_neg (conn_entry_ne hp), ihp post _ hpre2 hpost]

theorem list_getD_eq_getElem {α : Type} [Inhabited α] (l : List α) (j : Nat) (z : α)
    (h : j < l.length) : l.getD j z = l[j] := by
  rw [List.getD_eq_getElem?_getD, List.getElem?_eq_getElem h]
  rfl

theorem range6_decomp : ∀ d : Nat, d < 6 → ∃ l1 l2 : List Nat,
    List.range 6 = l1 ++ d :: l2 ∧ (∀ x ∈ l1, x ≠ d) ∧ (∀ x ∈ l2, x ≠ d) := by
  intro d hd
  interval_cases d
  · exact ⟨[], [1, 2, 3, 4, 5], by decide, by decide, by decide⟩
  · exact ⟨[0], [2, 3, 4, 5], by decide, by decide, by decide⟩
  · exact ⟨[0, 1], [3, 4, 5], by decide, by decide, by decide⟩
  · exact ⟨[0, 1, 2], [4, 5], by decide, by decide, by decide⟩
  · exact ⟨[0, 1, 2, 3], [5], by decide, by decide, by decide⟩
  · exact ⟨[0, 1, 2, 3, 4], [], by decide, by decide, by decide⟩

theorem connPairs_eq (rooms : List Room) (s : Nat) :
    connPairs ⟨rooms, s⟩ = rooms.flatMap roomPairs := rfl

theorem roomPairs_decomp (room : Room) {dd : Nat} {l1 l2 : List Nat}
    (h : List.range 6 = l1 ++ dd :: l2) :
    roomPairs room =
      l1.map (fun x => (room, x)) ++ (room, dd) :: l2.map (fun x => (room, x)) := by
  unfold roomPairs
  rw [h, List.map_append, List.map_cons]

theorem rooms_take_id {n : Nat} {rooms : List Room} (hs : RoomsShape n rooms)
    (k : Nat) : ∀ room ∈ rooms.take k, room.id < k := by
  intro room hm
  rw [List.mem_iff_getElem] at hm
  obtain ⟨j, hj, hjr⟩ := hm
  rw [List.length_take, hs.1] at hj
  have hjk : j < k := lt_of_lt_of_le hj inf_le_left
  have hjn : j < n := lt_of_lt_of_le hj inf_le_right
  have hlen : j < rooms.length := by rw [hs.1]; omega
  rw [List.getElem_take] at hjr
  have hido : (rooms.getD j default).id = j := (hs.2 j hjn).1
  rw [list_getD_eq_getElem rooms j default hlen, hjr] at hido
  omega

theorem rooms_drop_id {n : Nat} {rooms : List Room} (hs : RoomsShape n rooms)
    (k : Nat) : ∀ room ∈ rooms.drop k, k ≤ room.id := by
  intro room hm
  rw [List.mem_iff_getElem] at hm
  obtain ⟨j, hj, hjr⟩ := hm
  rw [List.length_drop, hs.1] at hj
  have hlen : k + j < rooms.length := by rw [hs.1]; omega
  rw [List.getElem_drop] at hjr
  have hido : (rooms.getD (k + j) default).id = k + j := (hs.2 (k + j) (by omega)).1
  rw [list_getD_eq_getElem rooms (k + j) default hlen, hjr] at hido
  omega

theorem rooms_slice_id {n : Nat} {rooms : List Room} (hs : RoomsShape n rooms)
    (a b : Nat) : ∀ room ∈ (rooms.drop a).take b, a ≤ room.id ∧ room.id < a + b := by
  intro room hm
  rw [List.mem_iff_getElem] at hm
  obtain ⟨j, hj, hjr⟩ := hm
  rw [List.length_take, List.length_drop, hs.1] at hj
  have hjb : j < b := lt_of_lt_of_le hj inf_le_left
  have hjn : j < n - a := lt_of_lt_of_le hj inf_le_right
  have hlen : a + j < rooms.length := by rw [hs.1]; omega
  rw [List.getElem_take, List.getElem_drop] at hjr
  have hido : (rooms.getD (a + j) default).id = a + j := (hs.2 (a + j) (by omega)).1
  rw [list_getD_eq_getElem rooms (a + j) default hlen, hjr] at hido
  omega

theorem connPairs_decomp_one {n : Nat} {rooms : List Room} (hs : RoomsShape n rooms)
    {r dd : Nat} (hr : r < n) (hd : dd < 6) :
    ∃ pre post, connPairs ⟨rooms, 0⟩ = pre ++ (rooms.getD r default, dd) :: post ∧
      (∀ p ∈ pre, ¬(p.1.id = r ∧ p.2 = dd)) ∧ (∀ p ∈ post, ¬(p.1.id = r ∧ p.2 = dd)) := by
  obtain ⟨l1, l2, hrange, hl1, hl2⟩ := range6_decomp dd hd
  have hlen : r < rooms.length := by rw [hs.1]; omega
  have hsplit : rooms = rooms.take r ++ rooms.getD r default :: rooms.drop (r + 1) := by
    conv_lhs => rw [← List.take_append_drop r rooms]
    rw [List.drop_eq_getElem_cons hlen, list_getD_eq_getElem rooms r default hlen]
  refine ⟨(rooms.take r).flatMap roomPairs ++ l1.map (fun x => (rooms.getD r default, x)),
    l2.map (fun x => (rooms.getD r default, x)) ++ (rooms.drop (r + 1)).flatMap roomPairs,
    ?_, ?_, ?_⟩
  · rw [connPairs_eq]
    conv_lhs => rw [hsplit]
    rw [List.flatMap_append, List.flatMap_cons, roomPairs_decomp _ hrange]
    simp [List.append_assoc]
  · intro p hp
    rcases List.mem_append.mp hp with h | h
    · rw [List.mem_flatMap] at h
      obtain ⟨room, hroom, hpf⟩ := h
      rw [roomPairs, List.mem_map] at hpf
      obtain ⟨x, hx, hpx⟩ := hpf
      have hidlt : room.id < r := rooms_take_id hs r room hroom
      rw [← hpx]
      intro hcontra
      have h1 : room.id = r := hcontra.1
      omega
    · rw [List.mem_map] at h
      obtain ⟨x, hx, hpx⟩ := h
      rw [← hpx]
      intro hcontra
      have h2 : x = dd := hcontra.2
      exact (hl1 x hx) h2
  · intro p hp
    rcases List.mem_append.mp hp with h | h
    · rw [List.mem_map] at h
      obtain ⟨x, hx, hpx⟩ := h
      rw [← hpx]
      intro hcontra
      have h2 : x = dd := hcontra.2
      exact (hl2 x hx) h2
    · rw [List.mem_flatMap] at h
      obtain ⟨room, hroom, hpf⟩ := h
      rw [roomPairs, List.mem_map] at hpf
      obtain ⟨x, hx, hpx⟩ := hpf
      have hge := rooms_drop_id hs (r + 1) room hroom
      rw [← hpx]
      intro hcontra
      have h1 : room.id = r := hcontra.1
      omega

theorem connPairs_decomp_two {n : Nat} {rooms : List Room} (hs : RoomsShape n rooms)
    {r d r' d' : Nat} (hlt : r < r') (hr' : r' < n) (hd : d < 6) (hd' : d' < 6) :
    ∃ pre mid post,
      connPairs ⟨rooms, 0⟩ =
        pre ++ ((rooms.getD r default, d) :: (mid ++ (rooms.getD r' default, d') :: post)) ∧
      (∀ p ∈ pre, ¬(p.1.id = r ∧ p.2 = d) ∧ ¬(p.1.id = r' ∧ p.2 = d')) ∧
      (∀ p ∈ mid, ¬(p.1.id = r ∧ p.2 = d) ∧ ¬(p.1.id = r' ∧ p.2 = d')) ∧
      (∀ p ∈ post, ¬(p.1.id = r ∧ p.2 = d) ∧ ¬(p.1.id = r' ∧ p.2 = d')) := by
  obtain ⟨l1, l2, hrange1, hl1, hl2⟩ := range6_decomp d hd
  obtain ⟨m1, m2, hrange2, hm1, hm2⟩ := range6_decomp d' hd'
  have hr : r < n := by omega
  have hlenr : r < rooms.length := by rw [hs.1]; omega
  have hlenr2 : r' < rooms.length := by rw [hs.1]; omega
  have hdrop : rooms.drop (r + 1) =
      (rooms.drop (r + 1)).take (r' - (r + 1)) ++
        rooms.getD r' default :: rooms.drop (r' + 1) := by
    conv_lhs => rw [← List.take_append_drop (r' - (r + 1)) (rooms.drop (r + 1))]
    rw [List.drop_drop, show r + 1 + (r' - (r + 1)) = r' by omega,
      List.drop_eq_getElem_cons hlenr2, list_getD_eq_getElem rooms r' default hlenr2]
  have hsplit : rooms = rooms.take r ++ rooms.getD r default :: rooms.drop (r + 1) := by
    conv_lhs => rw [← List.take_append_drop r rooms]
    rw [List.drop_eq_getElem_cons hlenr, list_getD_eq_getElem rooms r default hlenr]
  refine ⟨(rooms.take r).flatMap roomPairs ++ l1.map (fun x => (rooms.getD r default, x)),
    l2.map (fun x => (rooms.getD r default, x)) ++
      (((rooms.drop (r + 1)).take (r' - (r + 1))).flatMap roomPairs ++
        m1.map (fun x => (rooms.getD r' default, x))),
    m2.map (fun x => (rooms.getD r' default, x)) ++ (rooms.drop (r' + 1)).flatMap roomPairs,
    ?_, ?_, ?_, ?_⟩
  · rw [connPairs_eq]
    conv_lhs => rw [hsplit, hdrop]
    rw [List.flatMap_append, List.flatMap_cons, List.flatMap_append, List.flatMap_cons,
      roomPairs_decomp (rooms.getD r default) hrange1,
      roomPairs_decomp (rooms.getD r' default) hrange2]
    simp [List.append_assoc]
  · intro p hp
    rcases List.mem_append.mp hp with h | h
    · rw [List.mem_flatMap] at h
      obtain ⟨room, hroom, hpf⟩ := h
      rw [roomPairs, List.mem_map] at hpf
      obtain ⟨x, hx, hpx⟩ := hpf
      have hidlt : room.id < r := rooms_take_id hs r room hroom
      rw [← hpx]
      constructor
      · intro hcontra
        have h1 : room.id = r := hcontra.1
        omega
      · intro hcontra
        have h1 : room.id = r' := hcontra.1
        omega
    · rw [List.mem_map] at h
      obtain ⟨x, hx, hpx⟩ := h
      have hid : (rooms.getD r default).id = r := (hs.2 r hr).1
      rw [← hpx]
      constructor
      · intro hcontra
        exact (hl1 x hx) hcontra.2
      · intro hcontra
        have h1 : (rooms.getD r default).id = r' := hcontra.1
        omega
  · intro p hp
    rcases List.mem_append.mp hp with h | h
    · rw [List.mem_map] at h
      obtain ⟨x, hx, hpx⟩ := h
      have hid : (rooms.getD r default).id = r := (hs.2 r hr).1
      rw [← hpx]
      constructor
      · intro hcontra
        exact (hl2 x hx) hcontra.2
      · intro hcontra
        have h1 : (rooms.getD r default).id = r' := hcontra.1
        omega
    · rcases List.mem_append.mp h with h2 | h2
      · rw [List.mem_flatMap] at h2
        obtain ⟨room, hroom, hpf⟩ := h2
        rw [roomPairs, List.mem_map] at hpf
        obtain ⟨x, hx, hpx⟩ := hpf
        have hslice := rooms_slice_id hs (r + 1) (r' - (r + 1)) room hroom
        rw [← hpx]
        constructor
        · intro hcontra
          have h1 : room.id = r := hcontra.1
          omega
        · intro hcontra
          have h1 : room.id = r' := hcontra.1
          omega
      · rw [List.mem_map] at h2
        obtain ⟨x, hx, hpx⟩ := h2
        have hid : (rooms.getD r' default).id = r' := (hs.2 r' hr').1
        rw [← hpx]
        constructor
        · intro hcontra
          have h1 : (rooms.getD r' default).id = r := hcontra.1
          omega
        · intro hcontra
          exact (hm1 x hx) hcontra.2
  · intro p hp
    rcases List.mem_append.mp hp with h | h
    · rw [List.mem_map] at h
      obtain ⟨x, hx, hpx⟩ := h
      have hid : (rooms.getD r' default).id = r' := (hs.2 r' hr').1
      rw [← hpx]
      constructor
      · intro hcontra
        have h1 : (rooms.getD r' default).id = r := hcontra.1
        omega
      · intro hcontra
        exact (hm2 x hx) hcontra.2
    · rw [List.mem_flatMap] at h
      obtain ⟨room, hroom, hpf⟩ := h
      rw [roomPairs, List.mem_map] at hpf
      obtain ⟨x, hx, hpx⟩ := hpf
      have hge := rooms_drop_id hs (r' + 1) room hroom
      rw [← hpx]
      constructor
      · intro hcontra
        have h1 : room.id = r := hcontra.1
        omega
      · intro hcontra
        have h1 : room.id = r' := hcontra.1
        omega

/-- Claim C4, counterexample: on the maze `generateBuilding(3, 12345)`,
(a) the stepwise variant's `connections` emits the self-loop joining doors 1
and 5 of room 2 twice — once per orientation — because self-loops are never
recorded in the `seen` set, and (b) the first variant's `connections` drops
the link between room 0 door 5 and room 1 door 3 entirely: its key orders the
two door numbers independently of their rooms, so the key collides with the
one of the link between room 0 door 3 and room 1 door 5, scanned earlier. -/
theorem connections_dedup_counterexample :
    generateBuilding false 3 12345 = some sampleBuilding3 ∧
    doorOf sampleBuilding3.rooms 2 1 = ⟨2, 5⟩ ∧
    countConn ⟨⟨2, 1⟩, ⟨2, 5⟩⟩ (connections001 sampleBuilding3) = 1 ∧
    countConn ⟨⟨2, 5⟩, ⟨2, 1⟩⟩ (connections001 sampleBuilding3) = 1 ∧
    doorOf sampleBuilding3.rooms 0 5 = ⟨1, 3⟩ ∧
    countConn ⟨⟨0, 5⟩, ⟨1, 3⟩⟩ (connections000 sampleBuilding3) = 0 ∧
    countConn ⟨⟨1, 3⟩, ⟨0, 5⟩⟩ (connections000 sampleBuilding3) = 0 := by
  refine ⟨by decide, by decide, by decide, by decide, by decide, by decide, by decide⟩

/-- Claim C4 (amended, for the stepwise variant's `connections`): on any
structurally valid maze with symmetric doors, a link between two distinct
rooms `r < r'` produces exactly one entry — oriented from the lower-indexed
room, its reverse orientation is deduplicated away and nothing is dropped —
while a self-loop produces one entry per endpoint door: the entry of each
orientation appears exactly once, so a self-loop joining two distinct doors
of one room yields two entries rather than the single one the claim words
state (and a same-door self-loop yields one).  The first variant instead
loses colliding links entirely (see the counterexample). -/
theorem connections001_counts {n : Nat} {rooms : List Room} (hs : RoomsShape n rooms)
    {r d r' d' : Nat} (hr : r < n) (hr' : r' < n) (hd6 : d < 6) (hd'6 : d' < 6)
    (hD : doorOf rooms r d = ⟨(r' : Int), (d' : Int)⟩)
    (hD' : doorOf rooms r' d' = ⟨(r : Int), (d : Int)⟩) :
    (r < r' → countConn ⟨⟨(r : Int), (d : Int)⟩, ⟨(r' : Int), (d' : Int)⟩⟩
        (connections001 ⟨rooms, 0⟩) = 1 ∧
      countConn ⟨⟨(r' : Int), (d' : Int)⟩, ⟨(r : Int), (d : Int)⟩⟩
        (connections001 ⟨rooms, 0⟩) = 0) ∧
    (r = r' → countConn ⟨⟨(r : Int), (d : Int)⟩, ⟨(r' : Int), (d' : Int)⟩⟩
        (connections001 ⟨rooms, 0⟩) = 1) := by
  constructor
  · intro hlt
    obtain ⟨pre, mid, post, hdec, hpre, hmid, hpost⟩ :=
      connPairs_decomp_two hs hlt hr' hd6 hd'6
    unfold connections001
    rw [hdec]
    exact connScan001_pair hs hlt hr hr' hd6 hd'6 hD hD' pre mid post []
      (List.not_mem_nil _) hpre hmid hpost
  · intro heq
    subst heq
    obtain ⟨pre, post, hdec, hpre, hpost⟩ := connPairs_decomp_one hs hr hd6
    unfold connections001
    rw [hdec]
    exact connScan_count_selfloop connectionKey001 hs hr hd6 hD pre post []
      hpre hpost

/-- Witness for `connections001_counts` on `generateBuilding(3, 12345)`: the
link between room 0 door 3 and room 1 door 5 appears exactly once, oriented
from room 0, and its reverse orientation does not appear; the self-loop
joining doors 1 and 5 of room 2 contributes the (2,1)-to-(2,5) entry exactly
once. -/
theorem connections001_counts_witness :
    (countConn ⟨⟨0, 3⟩, ⟨1, 5⟩⟩ (connections001 ⟨sampleBuilding3.rooms, 0⟩) = 1 ∧
      countConn ⟨⟨1, 5⟩, ⟨0, 3⟩⟩ (connections001 ⟨sampleBuilding3.rooms, 0⟩) = 0) ∧
    countConn ⟨⟨2, 1⟩, ⟨2, 5⟩⟩ (connections001 ⟨sampleBuilding3.rooms, 0⟩) = 1 := by
  have h1 := (@connections001_counts 3 sampleBuilding3.rooms
    (by unfold RoomsShape; decide) 0 3 1 5
    (by decide) (by decide) (by decide) (by decide) (by decide) (by decide)).1 (by decide)
  have h2 := (@connections001_counts 3 sampleBuilding3.rooms
    (by unfold RoomsShape; decide) 2 1 2 5
    (by decide) (by decide) (by decide) (by decide) (by decide) (by decide)).2 rfl
  refine ⟨⟨?_, ?_⟩, ?_⟩
  · exact_mod_cast h1.1
  · exact_mod_cast h1.2
  · exact_mod_cast h2
